import Mathlib

/-!
# logrus-humanize: the text renderer of `pkg/humanize/formatter.go`

A shallow embedding of the formatter (`Format`, `renderFields`,
`renderFieldsCompact`, `renderFieldsLong`, `renderError`, `fieldOrder`,
`longestKeyLen`), of its configuration from the environment
(`parseFormatFromEnv`, `NewHumanizeFormatterFromEnv`) and of
`internal/terminal.GetTermInfo`, followed by theorems about the rendered
text.

Modelling conventions.

* A Go `string` is a sequence of bytes. It is modelled by `List Char`, one
  `Char` per byte, so `len` is `List.length`, `+` is `++` and `<` is the
  lexicographic comparison of the byte values.
* A Go `int` is modelled by `Int`. Every integer computed here is a length of a
  string held in memory plus a small constant, so no 64-bit overflow occurs.
* A Go `map[string]interface{}` is modelled by the list of its key/value pairs
  in the order in which one `range` loop visits them. A real map holds every
  key once: theorems that need this take `(keys m).Nodup` as a hypothesis.
* A `(string, error)` result is a pair whose second component is `none` for a
  `nil` error. A function that can panic returns an `Option`, `none` being the
  panic.
* The receiver `*Formatter` is passed explicitly and returned when it is
  written.
* The calls of the terminal-info provider `GetTermInfo` are counted where they
  are made, in `initTermInfo`, and the count is returned through
  `terminalInit` and `Format`.
-/

namespace Humanize

/-! ## Strings, values and maps -/

/-- Go `string`: a sequence of bytes. -/
abbrev GoString := List Char

/-- Go `error`, observed through its message `Error()`. -/
abbrev GoError := GoString

/-- Go's `a < b` on strings: lexicographic comparison of the bytes. -/
def strLess : GoString → GoString → Bool
  | [], [] => false
  | [], _ :: _ => true
  | _ :: _, [] => false
  | a :: as, b :: bs =>
    if a < b then true else if b < a then false else strLess as bs

/-- The order `a <= b` on strings, that is `!(b < a)`. -/
def strLe (a b : GoString) : Prop := strLess b a = false

instance strLe.decidable : DecidableRel strLe := fun a b =>
  inferInstanceAs (Decidable (strLess b a = false))

/-- One step of insertion sort: `x` is placed before the first element that is
not smaller than it. -/
def insertString (x : GoString) : List GoString → List GoString
  | [] => [x]
  | y :: ys => if strLess y x then y :: insertString x ys else x :: y :: ys

/-- The call `sort.Strings(fields)`: the slice is rearranged in increasing order
of `strLess`. Equal strings cannot be told apart, so the sorted arrangement
does not depend on the sorting algorithm; insertion sort is used here. -/
def sortStrings : List GoString → List GoString
  | [] => []
  | x :: xs => insertString x (sortStrings xs)

/-- A value stored in `entry.Data` (`interface{}`), as far as `%v` shows it. -/
inductive Value where
  /-- The nil interface value. -/
  | nil
  /-- A Go string. -/
  | str (s : GoString)
  /-- A Go integer. -/
  | int (i : Int)
  /-- An `error` value with message `msg`. -/
  | err (msg : GoString)
  /-- Any other value, given by the text that `%v` prints for it. -/
  | other (shown : GoString)
  deriving DecidableEq

/-- Decimal text of an integer, as `%v` prints it. -/
def fmtInt : Int → GoString
  | Int.ofNat n => Nat.toDigits 10 n
  | Int.negSucc n => '-' :: Nat.toDigits 10 (n + 1)

/-- The text `fmt` prints for a value under the verb `%v`. -/
def fmtV : Value → GoString
  | Value.nil => "<nil>".toList
  | Value.str s => s
  | Value.int i => fmtInt i
  | Value.err msg => msg
  | Value.other shown => shown

/-- The map type `logrus.Fields`: key/value pairs in iteration order. -/
abbrev Fields := List (GoString × Value)

/-- The keys of a map, in iteration order. -/
def keys (m : Fields) : List GoString := m.map Prod.fst

/-- The two-result index expression `v, ok := m[k]`. -/
def mapLookup (m : Fields) (k : GoString) : Option Value :=
  match m with
  | [] => none
  | (k', v) :: rest => if k' = k then some v else mapLookup rest k

/-- The index expression `m[k]`: the zero value (nil) when `k` is absent. -/
def mapIndex (m : Fields) (k : GoString) : Value :=
  (mapLookup m k).getD Value.nil

/-- The reserved key `"error"`. -/
def errorKey : GoString := "error".toList

/-! ## Library functions -/

/-- The call `strings.Repeat(s, count)`: panics when `count` is negative. -/
def stringsRepeat (s : GoString) (count : Int) : Option GoString :=
  if count < 0 then none else some (List.replicate count.toNat s).flatten

/-- The text of `logrus.Level.String()`; `Level` is a `uint32`. -/
def levelString (level : Nat) : GoString :=
  match level with
  | 0 => "panic".toList
  | 1 => "fatal".toList
  | 2 => "error".toList
  | 3 => "warning".toList
  | 4 => "info".toList
  | 5 => "debug".toList
  | 6 => "trace".toList
  | _ => "unknown".toList

/-! ## Terminal information (`internal/terminal/terminal.go`) -/

/-- The struct `TermInfo`. -/
structure TermInfo where
  IsTerminal : Bool
  HeightLines : Int
  WidthCols : Int
  deriving DecidableEq

/-- The zero value `TermInfo{}`. -/
def TermInfo.zero : TermInfo := ⟨false, 0, 0⟩

/-- An `io.Writer`, as `GetTermInfo` observes it: either an `*os.File`, given by
what `terminal.IsTerminal` and `terminal.GetSize` (width, height) return for
its descriptor, or a writer of another type. -/
inductive Writer where
  | file (isTerminal : Bool) (size : Except GoError (Int × Int))
  | other

/-- The function `GetTermInfo`: the info, the error and the text printed to
standard output. -/
def GetTermInfo (w : Writer) : TermInfo × Option GoError × GoString :=
  match w with
  | Writer.file isTerminal size =>
    if isTerminal then
      match size with
      | Except.error err => (TermInfo.zero, some err, [])
      | Except.ok (width, height) => (⟨true, height, width⟩, none, [])
    else (⟨false, 0, 0⟩, none, [])
  | Writer.other => (⟨false, 0, 0⟩, none, "No terminal attached\n".toList)

/-! ## The entry and the formatter -/

/-- A `time.Time`, observed through its method `Format(layout)`. -/
abbrev Time := GoString → GoString

/-- The part of `logrus.Logger` that is read: its output writer `Out`. -/
structure Logger where
  Out : Writer

/-- The part of `logrus.Entry` that the formatter reads. `Logger` is a pointer
that may be nil. -/
structure Entry where
  Logger : Option Logger
  Data : Fields
  Time : Time
  Level : Nat
  Message : GoString

/-- The fallback formatter; the constructor sets `logrus.JSONFormatter`. -/
inductive FallbackFormatter where
  | json
  deriving DecidableEq

/-- The struct `Formatter`. The field `terminalInitOnce` is the `sync.Once`,
given by its done flag. -/
structure Formatter where
  DateTimeFormat : GoString
  Compact : Bool
  Fallback : FallbackFormatter
  termInfo : TermInfo
  terminalInitOnce : Bool
  deriving DecidableEq

/-- The constructor `NewHumanizeFormatter`. -/
def NewHumanizeFormatter : Formatter :=
  { DateTimeFormat := "2006-01-02T15:04:05".toList
    Compact := false
    Fallback := FallbackFormatter.json
    termInfo := TermInfo.zero
    terminalInitOnce := false }

/-- The method `initTermInfo`: the receiver after the call, the error, the
text printed to standard output, and the number of calls of `GetTermInfo` that
were made: one where the call stands, on the branch `entry.Logger != nil`,
none on the other branch. -/
def initTermInfo (fmttr : Formatter) (entry : Entry) :
    Formatter × Option GoError × GoString × Nat :=
  match entry.Logger with
  | some logger =>
    match GetTermInfo logger.Out with
    | (_, some err, out) => (fmttr, some err, out, 1)
    | (termInfo, none, out) => ({ fmttr with termInfo := termInfo }, none, out, 1)
  | none => (fmttr, none, [], 0)

/-- The statement `fmttr.terminalInitOnce.Do(func() ...)` that opens `Format`:
the receiver after it, the text printed to standard output, and the number of
calls of `GetTermInfo` that were made, which is that of `initTermInfo` when the
function runs and 0 when the once-flag is set. -/
def terminalInit (fmttr : Formatter) (entry : Entry) : Formatter × GoString × Nat :=
  if fmttr.terminalInitOnce then (fmttr, [], 0)
  else
    match initTermInfo fmttr entry with
    | (f, some err, out, probes) =>
      ({ f with terminalInitOnce := true },
        out ++ "Failed to initialize terminal with err ".toList ++ err, probes)
    | (f, none, out, probes) => ({ f with terminalInitOnce := true }, out, probes)

/-- The function `newLineWithOffset`. -/
def newLineWithOffset (offset : Int) : Option GoString :=
  (stringsRepeat " ".toList offset).map fun sp => "\n".toList ++ sp

/-- The function `fieldOrder`. -/
def fieldOrder (entry : Entry) : List GoString :=
  sortStrings (entry.Data.foldl (fun fields p => fields ++ [p.1]) [])

/-- The function `longestKeyLen`. -/
def longestKeyLen (m : Fields) : Int :=
  m.foldl (fun longest p => if (p.1.length : Int) > longest then (p.1.length : Int) else longest) 0

/-- The loop of `renderFieldsCompact` over the ordered fields, on the pair
`(lines, currentLine)`. -/
def compactLoop (data : Fields) (wrapWidth offset : Int) :
    List GoString → GoString × GoString → Option (GoString × GoString)
  | [], acc => some acc
  | field :: rest, (lines, currentLine) =>
    if field = errorKey then compactLoop data wrapWidth offset rest (lines, currentLine)
    else
      let value := mapIndex data field
      let line := field ++ ": ".toList ++ fmtV value
      if (line.length : Int) + (currentLine.length : Int) > wrapWidth then
        match newLineWithOffset offset with
        | none => none
        | some nl => compactLoop data wrapWidth offset rest (lines ++ currentLine, nl ++ line)
      else
        compactLoop data wrapWidth offset rest (lines, currentLine ++ "\t".toList ++ line)

/-- The method `renderFieldsCompact`. -/
def renderFieldsCompact (fmttr : Formatter) (entry : Entry) :
    Option (GoString × Option GoError) :=
  let offset : Int := 4
  let wrapWidth := fmttr.termInfo.WidthCols
  match newLineWithOffset offset with
  | none => none
  | some lines =>
    match stringsRepeat " ".toList offset with
    | none => none
    | some currentLine =>
      let orderedFields := fieldOrder entry
      match compactLoop entry.Data wrapWidth offset orderedFields (lines, currentLine) with
      | none => none
      | some (lines, currentLine) =>
        if ¬ (currentLine = []) then some (lines ++ currentLine, none)
        else some (lines, none)

/-- The loop of `renderFieldsLong` over the ordered fields, on `lines`. -/
def longLoop (data : Fields) (spacer : GoString) (maxFieldWidth : Int) :
    List GoString → GoString → Option GoString
  | [], lines => some lines
  | field :: rest, lines =>
    if field = errorKey then longLoop data spacer maxFieldWidth rest lines
    else
      let value := mapIndex data field
      match stringsRepeat " ".toList (maxFieldWidth - (field.length : Int)) with
      | none => none
      | some fieldPadding =>
        let line := "\n".toList ++ spacer ++ field ++ ": ".toList ++ fieldPadding ++ fmtV value
        longLoop data spacer maxFieldWidth rest (lines ++ line)

/-- The method `renderFieldsLong`. -/
def renderFieldsLong (fmttr : Formatter) (entry : Entry) :
    Option (GoString × Option GoError) :=
  let offset : Int := 1 + (fmttr.DateTimeFormat.length : Int)
  match stringsRepeat " ".toList offset with
  | none => none
  | some spacer =>
    let orderedFields := fieldOrder entry
    let fieldPadding : Int := 2
    let maxFieldWidth := longestKeyLen entry.Data + fieldPadding
    match stringsRepeat " ".toList (Int.tdiv offset 2) with
    | none => none
    | some half =>
      let lines := "\n".toList ++ half ++ "Fields:".toList
      match longLoop entry.Data spacer maxFieldWidth orderedFields lines with
      | none => none
      | some lines => some (lines, none)

/-- The method `renderFields`. -/
def renderFields (fmttr : Formatter) (entry : Entry) :
    Option (GoString × Option GoError) :=
  if entry.Data.length = 0 then some ([], none)
  else
    let compact := fmttr.Compact || false
    if compact then renderFieldsCompact fmttr entry
    else renderFieldsLong fmttr entry

/-- The method `renderError`. -/
def renderError (entry : Entry) : GoString × Option GoError :=
  match mapLookup entry.Data errorKey with
  | some error => ("\nERROR: ".toList ++ fmtV error, none)
  | none => ([], none)

/-- What a call of `Format` leaves: the receiver after the call, the text
printed to standard output, the two results, and the number of calls of
`GetTermInfo` made during the call. -/
structure FormatResult where
  fmttr : Formatter
  stdout : GoString
  bytes : GoString
  err : Option GoError
  probes : Nat
  deriving DecidableEq

/-- The header line built by `Format`:
`fmt.Sprintf("\n%s [%s]: %s", ts, level, msg)`. -/
def headerLine (fmttr : Formatter) (entry : Entry) : GoString :=
  let timeFormat := fmttr.DateTimeFormat
  let ts := entry.Time timeFormat
  let msg := entry.Message
  let level := entry.Level
  "\n".toList ++ ts ++ " [".toList ++ levelString level ++ "]: ".toList ++ msg

/-- The method `Format`; `none` is a panic. -/
def Format (fmttr : Formatter) (entry : Entry) : Option FormatResult :=
  match terminalInit fmttr entry with
  | (fmttr, out, probes) =>
    let line := headerLine fmttr entry
    match renderFields fmttr entry with
    | none => none
    | some (_, some err) => some ⟨fmttr, out, [], some err, probes⟩
    | some (fields, none) =>
      match renderError entry with
      | (_, some err) => some ⟨fmttr, out, [], some err, probes⟩
      | (errMsg, none) => some ⟨fmttr, out, line ++ fields ++ errMsg, none, probes⟩

/-! ## Configuration from the environment -/

/-- The constant `HumanizeFormatVar`. -/
def HumanizeFormatVar : GoString := "HUMANIZE".toList

/-- The constant `FormatFull`. -/
def FormatFull : GoString := "FULL".toList

/-- The constant `FormatCompact`. -/
def FormatCompact : GoString := "COMPACT".toList

/-- The constant `FormatJSON`. -/
def FormatJSON : GoString := "JSON".toList

/-- A value of the interface `logrus.Formatter` returned by
`NewHumanizeFormatterFromEnv`: a `*Formatter` or the fallback formatter. -/
inductive LogrusFormatter where
  | humanize (fmttr : Formatter)
  | fallback (f : FallbackFormatter)
  deriving DecidableEq

/-- The function `parseFormatFromEnv`. The two results of
`os.LookupEnv(HumanizeFormatVar)` are given as `env`, `none` when the variable
is not set; the library function `strings.ToUpper` is the parameter
`toUpper`. -/
def parseFormatFromEnv (toUpper : GoString → GoString) (env : Option GoString) :
    GoString × Option GoError :=
  match env with
  | some envVal =>
    if toUpper envVal = FormatFull then (FormatFull, none)
    else if toUpper envVal = FormatCompact then (FormatCompact, none)
    else if toUpper envVal = FormatJSON then (FormatJSON, none)
    else ([], some ("No such format as ".toList ++ envVal))
  | none =>
    ([], some (HumanizeFormatVar ++ " not set in env, no format value could be read".toList))

/-- The function `NewHumanizeFormatterFromEnv`. -/
def NewHumanizeFormatterFromEnv (toUpper : GoString → GoString) (env : Option GoString) :
    LogrusFormatter × Option GoError :=
  let defaultFormatter := NewHumanizeFormatter
  match parseFormatFromEnv toUpper env with
  | (_, some err) => (LogrusFormatter.humanize defaultFormatter, some err)
  | (providedFormat, none) =>
    if providedFormat = FormatCompact then
      (LogrusFormatter.humanize { defaultFormatter with Compact := true }, none)
    else if providedFormat = FormatFull then
      (LogrusFormatter.humanize { defaultFormatter with Compact := false }, none)
    else if providedFormat = FormatJSON then
      (LogrusFormatter.fallback defaultFormatter.Fallback, none)
    else (LogrusFormatter.humanize defaultFormatter, none)

/-! ## The entries of the demo (`cmd/humanize/demo.go`) -/

/-- The fields `power_level: 9000, dance: "flhargunstow"` of the demo. -/
def demoFields : Fields :=
  [("power_level".toList, Value.int 9000), ("dance".toList, Value.str "flhargunstow".toList)]

/-- The demo's entry `logger.Info(...)`, with no logger attached and a clock
that prints `ts` for every layout. -/
def demoEntry (ts msg : GoString) : Entry :=
  { Logger := none, Data := demoFields, Time := fun _ => ts, Level := 4, Message := msg }

/-- The demo's entry `logger.WithError(err).Error(...)`. -/
def demoErrorEntry (ts msg : GoString) : Entry :=
  { Logger := none
    Data := ("error".toList, Value.err "oh heavens oh no an error eep".toList) :: demoFields
    Time := fun _ => ts, Level := 2, Message := msg }

/-! ## Vocabulary of the statements -/

/-- The string of `n` spaces. -/
def spaces (n : Nat) : GoString := List.replicate n ' '

/-- The longest key length over all keys of the map, the reserved key
included; 0 for the empty map. -/
def maxKeyLen (m : Fields) : Nat := ((keys m).map List.length).foldr max 0

/-- The text `<key>: <pad><value>` of one field in the long layout, after the
line's offset: the key, a colon and a space, `width - len(key)` spaces, and the
value as `%v` prints it. -/
def longField (data : Fields) (width : Nat) (k : GoString) : GoString :=
  k ++ ": ".toList ++ spaces (width - k.length) ++ fmtV (mapIndex data k)

/-- The keys that the renderers show as fields: the sorted keys without the
reserved key. -/
def shownKeys (entry : Entry) : List GoString :=
  (fieldOrder entry).filter fun k => decide (k ≠ errorKey)

/-- The text `<key>: <value>` of one field in the compact layout. -/
def compactField (data : Fields) (k : GoString) : GoString :=
  k ++ ": ".toList ++ fmtV (mapIndex data k)

/-- The separator of two fields that share a line: one tab. -/
def tabSep : GoString := "\t".toList

/-- The separator that starts a new line: a newline and 4 spaces. -/
def wrapSep : GoString := "\n".toList ++ spaces 4

/-- The combined length of the 4-space offset and of all fields shown by the
compact layout, each as `<key>: <value>` preceded by one tab. -/
def compactTotal (entry : Entry) : Nat :=
  4 + ((shownKeys entry).map fun k => 1 + (compactField entry.Data k).length).sum

/-- The formatter in the compact layout with a terminal of `width` columns
cached. -/
def compactFormatter (width : Int) : Formatter :=
  { NewHumanizeFormatter with
    Compact := true, termInfo := ⟨true, 24, width⟩, terminalInitOnce := true }

/-- The formatter in the compact layout with the non-terminal `TermInfo`
cached. -/
def nonTerminalFormatter : Formatter :=
  { NewHumanizeFormatter with
    Compact := true, termInfo := ⟨false, 0, 0⟩, terminalInitOnce := true }

/-- An entry with the single field ab: "cd". -/
def shortEntry : Entry :=
  { Logger := none, Data := [("ab".toList, Value.str "cd".toList)]
    Time := fun _ => [], Level := 4, Message := [] }

/-- The lines of a text: the segments between its newline bytes. -/
def textLines : GoString → List GoString
  | [] => [[]]
  | c :: cs =>
    match textLines cs with
    | [] => [[]]
    | l :: ls => if c = '\n' then [] :: l :: ls else (c :: l) :: ls

/-- An entry `logger.WithError(err).Error(...)` whose only key is "error". -/
def errorOnlyEntry (ts msg : GoString) : Entry :=
  { Logger := none
    Data := [("error".toList, Value.err "oh heavens oh no an error eep".toList)]
    Time := fun _ => ts, Level := 2, Message := msg }

/-- An entry `logrus.Info(...)` with no fields. -/
def noFieldsEntry (ts msg : GoString) : Entry :=
  { Logger := none, Data := [], Time := fun _ => ts, Level := 4, Message := msg }

/-- The same entry with the "error" field removed from its map. -/
def withoutError (entry : Entry) : Entry :=
  { entry with Data := entry.Data.filter fun p => decide (p.1 ≠ errorKey) }

/-- An entry with an error and the two short keys id and op. -/
def shortKeysErrorEntry : Entry :=
  { Logger := none
    Data := [("op".toList, Value.str "get".toList),
      ("error".toList, Value.err "boom".toList), ("id".toList, Value.int 7)]
    Time := fun _ => [], Level := 2, Message := [] }

/-- A sequence of calls of `Format` on one formatter, one per entry: the
receiver after each call and the probe counter after it, which is the counter
before the call plus the calls of `GetTermInfo` that the call of `Format`
made. A call that panics ends the sequence. -/
def formatCalls : Formatter → Nat → List Entry → List (Formatter × Nat)
  | _, _, [] => []
  | fmttr, probes, entry :: rest =>
    match Format fmttr entry with
    | none => []
    | some r =>
      (r.fmttr, probes + r.probes) :: formatCalls r.fmttr (probes + r.probes) rest

/-- The demo's entry with a logger that writes to a terminal whose size query
fails with the error `err`. -/
def failingSizeEntry (err : GoError) : Entry :=
  { demoEntry [] [] with Logger := some ⟨Writer.file true (Except.error err)⟩ }

/-- The demo's entry with a logger that writes to a terminal of the given
width and height. -/
def terminalEntry (width height : Int) : Entry :=
  { demoEntry [] [] with Logger := some ⟨Writer.file true (Except.ok (width, height))⟩ }

/-- Upper case of ASCII text: the bytes a to z become A to Z. On such text
this is what `strings.ToUpper` returns. -/
def asciiToUpper (s : GoString) : GoString :=
  s.map fun c => if 'a' ≤ c ∧ c ≤ 'z' then Char.ofNat (c.toNat - 32) else c

/-- The separators that the loop of `renderFieldsCompact` puts before the
fields, in order, for the ordered fields and the value of `currentLine` at the
start: `wrapSep` at a field where the test
`len(line)+len(currentLine) > wrapWidth` holds, `tabSep` at the others. -/
def compactSeps (data : Fields) (wrapWidth : Int) : List GoString → GoString → List GoString
  | [], _ => []
  | field :: rest, currentLine =>
    if field = errorKey then compactSeps data wrapWidth rest currentLine
    else
      let line := field ++ ": ".toList ++ fmtV (mapIndex data field)
      if (line.length : Int) + (currentLine.length : Int) > wrapWidth then
        wrapSep :: compactSeps data wrapWidth rest (wrapSep ++ line)
      else
        tabSep :: compactSeps data wrapWidth rest (currentLine ++ "\t".toList ++ line)

/-- The number of wrap separators in a list of separators. -/
def wrapCount (seps : List GoString) : Nat :=
  (seps.filter fun s => decide (s = wrapSep)).length

/-! ## The order of strings and the sorted key sequence -/

theorem strLess_irrefl (a : GoString) : strLess a a = false := by
  induction a with
  | nil => rfl
  | cons x xs ih => simp [strLess, ih]

theorem strLess_trichotomy : ∀ a b : GoString,
    strLess a b = true ∨ a = b ∨ strLess b a = true
  | [], [] => by simp
  | [], _ :: _ => by simp [strLess]
  | _ :: _, [] => by simp [strLess]
  | x :: xs, y :: ys => by
    rcases lt_trichotomy x y with h | h | h
    · simp [strLess, h]
    · subst h
      rcases strLess_trichotomy xs ys with h | h | h
      · simp [strLess, h]
      · simp [h]
      · simp [strLess, h]
    · simp [strLess, h]

theorem strLess_trans : ∀ a b c : GoString,
    strLess a b = true → strLess b c = true → strLess a c = true
  | [], [], _ => by simp [strLess]
  | [], _ :: _, [] => by simp [strLess]
  | [], _ :: _, _ :: _ => by simp [strLess]
  | _ :: _, [], _ => by simp [strLess]
  | _ :: _, _ :: _, [] => by simp [strLess]
  | x :: xs, y :: ys, z :: zs => by
    intro h1 h2
    rcases lt_trichotomy x y with p | p | p
    · rcases lt_trichotomy y z with q | q | q
      · simp [strLess, lt_trans p q]
      · subst q; simp [strLess, p]
      · simp [strLess, q, lt_asymm q] at h2
    · subst p
      rcases lt_trichotomy x z with q | q | q
      · simp [strLess, q]
      · subst q
        simp only [strLess, lt_irrefl, if_false] at h1 h2 ⊢
        exact strLess_trans xs ys zs h1 h2
      · simp [strLess, q, lt_asymm q] at h2
    · simp [strLess, p, lt_asymm p] at h1

theorem strLess_asymm (a b : GoString) (h : strLess a b = true) : strLess b a = false := by
  cases hb : strLess b a with
  | false => rfl
  | true =>
    have := strLess_trans a b a h hb
    rw [strLess_irrefl] at this
    exact absurd this (by decide)

theorem strLe_total (a b : GoString) : strLe a b ∨ strLe b a := by
  unfold strLe
  rcases strLess_trichotomy a b with h | h | h
  · exact Or.inl (strLess_asymm a b h)
  · subst h; exact Or.inl (strLess_irrefl a)
  · exact Or.inr (strLess_asymm b a h)

theorem strLe_antisymm (a b : GoString) (h1 : strLe a b) (h2 : strLe b a) : a = b := by
  unfold strLe at h1 h2
  rcases strLess_trichotomy a b with h | h | h
  · rw [h] at h2; exact absurd h2 (by decide)
  · exact h
  · rw [h] at h1; exact absurd h1 (by decide)

theorem strLe_trans (a b c : GoString) (h1 : strLe a b) (h2 : strLe b c) : strLe a c := by
  unfold strLe at h1 h2 ⊢
  cases hca : strLess c a with
  | false => rfl
  | true =>
    rcases strLess_trichotomy a b with h | h | h
    · rw [strLess_trans c a b hca h] at h2; exact absurd h2 (by decide)
    · subst h; rw [hca] at h2; exact absurd h2 (by decide)
    · rw [h] at h1; exact absurd h1 (by decide)

instance strLe.isTotal : IsTotal GoString strLe := ⟨strLe_total⟩
instance strLe.isTrans : IsTrans GoString strLe := ⟨strLe_trans⟩
instance strLe.isAntisymm : IsAntisymm GoString strLe := ⟨strLe_antisymm⟩

theorem insertString_eq (x : GoString) (l : List GoString) :
    insertString x l = List.orderedInsert strLe x l := by
  induction l with
  | nil => rfl
  | cons y ys ih =>
    simp only [insertString, List.orderedInsert, strLe, ih]
    by_cases h : strLess y x = true
    · simp [h]
    · simp [Bool.eq_false_iff.mpr h]

theorem sortStrings_eq (l : List GoString) : sortStrings l = List.insertionSort strLe l := by
  induction l with
  | nil => rfl
  | cons x xs ih => simp [sortStrings, List.insertionSort, insertString_eq, ih]

theorem sortStrings_sorted (l : List GoString) : List.Sorted strLe (sortStrings l) := by
  rw [sortStrings_eq]; exact List.sorted_insertionSort strLe l

theorem sortStrings_perm (l : List GoString) : (sortStrings l).Perm l := by
  rw [sortStrings_eq]; exact List.perm_insertionSort strLe l

theorem sortStrings_congr {l₁ l₂ : List GoString} (h : l₁.Perm l₂) :
    sortStrings l₁ = sortStrings l₂ :=
  List.eq_of_perm_of_sorted (r := strLe)
    (((sortStrings_perm l₁).trans h).trans (sortStrings_perm l₂).symm)
    (sortStrings_sorted l₁) (sortStrings_sorted l₂)

theorem foldl_append_keys (m : Fields) (acc : List GoString) :
    m.foldl (fun fields p => fields ++ [p.1]) acc = acc ++ keys m := by
  induction m generalizing acc with
  | nil => simp [keys]
  | cons p ps ih => simp [keys, ih] at *

theorem fieldOrder_eq (entry : Entry) : fieldOrder entry = sortStrings (keys entry.Data) := by
  simp [fieldOrder, foldl_append_keys]

theorem fieldOrder_perm (entry : Entry) : (fieldOrder entry).Perm (keys entry.Data) := by
  rw [fieldOrder_eq]; exact sortStrings_perm _

theorem mem_fieldOrder (entry : Entry) (k : GoString) :
    k ∈ fieldOrder entry ↔ k ∈ keys entry.Data := (fieldOrder_perm entry).mem_iff

/-! ## The long layout -/

theorem stringsRepeat_space (n : Nat) :
    stringsRepeat " ".toList (n : Int) = some (spaces n) := by
  have h : ¬ ((n : Int) < 0) := by omega
  simp only [stringsRepeat, h, if_false, Int.toNat_ofNat, spaces]
  congr 1
  induction n with
  | zero => rfl
  | succ n ih => simp [List.replicate_succ, ih]

theorem foldl_longest (m : Fields) (acc : Int) (hacc : 0 ≤ acc) :
    m.foldl (fun longest p =>
      if (p.1.length : Int) > longest then (p.1.length : Int) else longest) acc
      = max acc (maxKeyLen m : Int) := by
  induction m generalizing acc with
  | nil => simp [maxKeyLen, keys, hacc]
  | cons p ps ih =>
    simp only [List.foldl_cons]
    rw [ih _ (by split_ifs <;> omega)]
    simp only [maxKeyLen, keys, List.map_cons, List.foldr_cons] at *
    split_ifs <;> omega

theorem longestKeyLen_eq (m : Fields) : longestKeyLen m = (maxKeyLen m : Int) := by
  unfold longestKeyLen
  rw [foldl_longest m 0 (le_refl 0)]
  omega

theorem length_le_maxKeyLen (m : Fields) (k : GoString) (h : k ∈ keys m) :
    k.length ≤ maxKeyLen m := by
  induction m with
  | nil => simp [keys] at h
  | cons p ps ih =>
    simp only [keys, List.map_cons, List.mem_cons] at h
    simp only [maxKeyLen, keys, List.map_cons, List.foldr_cons] at *
    rcases h with h | h
    · subst h; omega
    · have := ih h; omega

theorem longLoop_eq (data : Fields) (spacer : GoString) (width : Nat) :
    ∀ (ks : List GoString) (lines : GoString),
      (∀ k ∈ ks, k ≠ errorKey → k.length ≤ width) →
      longLoop data spacer (width : Int) ks lines =
        some (lines ++ (ks.filter fun k => decide (k ≠ errorKey)).flatMap fun k =>
          "\n".toList ++ spacer ++ longField data width k)
  | [], lines, _ => by simp [longLoop]
  | k :: ks, lines, h => by
    have ih := longLoop_eq data spacer width ks
    by_cases hk : k = errorKey
    · simp only [longLoop, hk, if_true]
      rw [ih lines (fun k' hk' => h k' (List.mem_cons_of_mem _ hk'))]
      simp
    · have hlen : k.length ≤ width := h k (List.mem_cons_self _ _) hk
      have hsub : (width : Int) - (k.length : Int) = ((width - k.length : Nat) : Int) := by
        omega
      simp only [longLoop, hk, if_false, hsub, stringsRepeat_space]
      rw [ih _ (fun k' hk' => h k' (List.mem_cons_of_mem _ hk'))]
      simp [hk, longField, List.append_assoc]

theorem renderFieldsLong_eq (fmttr : Formatter) (entry : Entry) :
    renderFieldsLong fmttr entry =
      some ("\n".toList ++ spaces ((1 + fmttr.DateTimeFormat.length) / 2) ++ "Fields:".toList ++
        (shownKeys entry).flatMap (fun k =>
          "\n".toList ++ spaces (1 + fmttr.DateTimeFormat.length) ++
            longField entry.Data (maxKeyLen entry.Data + 2) k), none) := by
  have h1 : (1 : Int) + (fmttr.DateTimeFormat.length : Int)
      = ((1 + fmttr.DateTimeFormat.length : Nat) : Int) := by omega
  have h2 : Int.tdiv ((1 + fmttr.DateTimeFormat.length : Nat) : Int) 2
      = (((1 + fmttr.DateTimeFormat.length) / 2 : Nat) : Int) := by
    rw [Int.tdiv_eq_ediv (by omega) (by omega)]; omega
  have h3 : longestKeyLen entry.Data + 2 = ((maxKeyLen entry.Data + 2 : Nat) : Int) := by
    rw [longestKeyLen_eq]; omega
  simp only [renderFieldsLong, h1, h2, h3, stringsRepeat_space]
  rw [longLoop_eq]
  · rfl
  · intro k hk _
    have := length_le_maxKeyLen entry.Data k ((mem_fieldOrder entry k).mp hk)
    omega

/-! ## The compact layout -/

theorem newLineWithOffset_four : newLineWithOffset 4 = some wrapSep := by
  have := stringsRepeat_space 4
  simp only [Nat.cast_ofNat] at this
  rw [newLineWithOffset, this]; rfl

theorem compactLoop_seps (data : Fields) (wrapWidth : Int) :
    ∀ (ks : List GoString) (lines cur : GoString), cur ≠ [] →
      ∃ (seps : List GoString) (lines' cur' : GoString),
        compactLoop data wrapWidth 4 ks (lines, cur) = some (lines', cur') ∧
        cur' ≠ [] ∧
        seps.length = (ks.filter fun k => decide (k ≠ errorKey)).length ∧
        (∀ s ∈ seps, s = tabSep ∨ s = wrapSep) ∧
        lines' ++ cur' = lines ++ cur ++
          (List.zipWith (fun s k => s ++ compactField data k) seps
            (ks.filter fun k => decide (k ≠ errorKey))).flatten
  | [], lines, cur, hcur => ⟨[], lines, cur, by simp [compactLoop, hcur]⟩
  | k :: ks, lines, cur, hcur => by
    by_cases hk : k = errorKey
    · obtain ⟨seps, l', c', h1, h2, h3, h4, h5⟩ := compactLoop_seps data wrapWidth ks lines cur hcur
      exact ⟨seps, l', c', by simp [compactLoop, hk, h1], h2, by simp [hk, h3], h4,
        by simp [hk, h5]⟩
    · by_cases hw : ((k ++ ": ".toList ++ fmtV (mapIndex data k)).length : Int)
          + (cur.length : Int) > wrapWidth
      · obtain ⟨seps, l', c', h1, h2, h3, h4, h5⟩ :=
          compactLoop_seps data wrapWidth ks (lines ++ cur) (wrapSep ++ compactField data k)
            (by simp [wrapSep])
        refine ⟨wrapSep :: seps, l', c', ?_, h2, by simp [hk, h3], ?_, ?_⟩
        · simp only [compactLoop, hk, if_false, hw, if_true, newLineWithOffset_four]
          exact h1
        · intro s hs
          rcases List.mem_cons.mp hs with h | h
          · exact Or.inr h
          · exact h4 s h
        · simp [hk, h5, List.append_assoc]
      · obtain ⟨seps, l', c', h1, h2, h3, h4, h5⟩ :=
          compactLoop_seps data wrapWidth ks lines (cur ++ tabSep ++ compactField data k)
            (by simp [hcur])
        refine ⟨tabSep :: seps, l', c', ?_, h2, by simp [hk, h3], ?_, ?_⟩
        · simp only [compactLoop, hk, if_false, hw]
          exact h1
        · intro s hs
          rcases List.mem_cons.mp hs with h | h
          · exact Or.inl h
          · exact h4 s h
        · simp [hk, h5, List.append_assoc]

theorem renderFieldsCompact_seps (fmttr : Formatter) (entry : Entry) :
    ∃ seps : List GoString,
      seps.length = (shownKeys entry).length ∧
      (∀ s ∈ seps, s = tabSep ∨ s = wrapSep) ∧
      renderFieldsCompact fmttr entry =
        some ("\n".toList ++ spaces 8 ++
          (List.zipWith (fun s k => s ++ compactField entry.Data k) seps
            (shownKeys entry)).flatten, none) := by
  have hsp : stringsRepeat " ".toList 4 = some (spaces 4) := by
    have := stringsRepeat_space 4
    simpa only [Nat.cast_ofNat] using this
  obtain ⟨seps, l', c', h1, h2, h3, h4, h5⟩ :=
    compactLoop_seps entry.Data fmttr.termInfo.WidthCols (fieldOrder entry)
      wrapSep (spaces 4) (by simp [spaces])
  refine ⟨seps, h3, h4, ?_⟩
  simp only [renderFieldsCompact, newLineWithOffset_four, hsp, h1, h2, not_false_eq_true,
    if_true, h5]
  rfl

/-! ## `Format` -/

theorem renderFields_total (fmttr : Formatter) (entry : Entry) :
    ∃ fieldsBlock : GoString, renderFields fmttr entry = some (fieldsBlock, none) := by
  unfold renderFields
  by_cases h0 : entry.Data.length = 0
  · exact ⟨[], by simp [h0]⟩
  · cases hc : fmttr.Compact
    · exact ⟨_, by simp only [h0, if_false, hc, Bool.or_false, Bool.false_eq_true]; exact renderFieldsLong_eq fmttr entry⟩
    · obtain ⟨seps, -, -, h⟩ := renderFieldsCompact_seps fmttr entry
      exact ⟨_, by simp only [h0, if_false, hc, Bool.or_false, if_true]; exact h⟩

theorem initTermInfo_DateTimeFormat (fmttr : Formatter) (entry : Entry) :
    (initTermInfo fmttr entry).1.DateTimeFormat = fmttr.DateTimeFormat := by
  unfold initTermInfo
  split
  · split <;> rfl
  · rfl

theorem terminalInit_DateTimeFormat (fmttr : Formatter) (entry : Entry) :
    (terminalInit fmttr entry).1.DateTimeFormat = fmttr.DateTimeFormat := by
  have h := initTermInfo_DateTimeFormat fmttr entry
  unfold terminalInit
  split
  · rfl
  · split <;> rename_i heq <;> rw [heq] at h <;> exact h

theorem renderError_snd (entry : Entry) : (renderError entry).2 = none := by
  unfold renderError; split <;> rfl

theorem Format_eq (fmttr : Formatter) (entry : Entry) (fieldsBlock : GoString)
    (h : renderFields (terminalInit fmttr entry).1 entry = some (fieldsBlock, none)) :
    Format fmttr entry = some
      { fmttr := (terminalInit fmttr entry).1
        stdout := (terminalInit fmttr entry).2.1
        probes := (terminalInit fmttr entry).2.2
        bytes := headerLine fmttr entry ++ fieldsBlock ++ (renderError entry).1
        err := none } := by
  have hh : headerLine (terminalInit fmttr entry).1 entry = headerLine fmttr entry := by
    simp only [headerLine, terminalInit_DateTimeFormat]
  have he : renderError entry = ((renderError entry).1, none) := by
    rw [← renderError_snd entry]
  unfold Format
  simp only [h, hh]
  rw [he]

/-- C1: for every formatter state and every entry, `Format` returns, with a nil
error, the bytes of header ++ fieldsBlock ++ errorLine, where the header is
"\n" ++ timestamp (formatted with `DateTimeFormat`) ++ " [" ++ level name ++
"]: " ++ message, whole and unwrapped, fieldsBlock is the result of
`renderFields` and errorLine is the result of `renderError`. -/
theorem Format_header_fields_error (fmttr : Formatter) (entry : Entry) :
    ∃ fieldsBlock errorLine : GoString,
      renderFields (terminalInit fmttr entry).1 entry = some (fieldsBlock, none) ∧
      renderError entry = (errorLine, none) ∧
      Format fmttr entry = some
        { fmttr := (terminalInit fmttr entry).1
          stdout := (terminalInit fmttr entry).2.1
          probes := (terminalInit fmttr entry).2.2
          bytes := "\n".toList ++ entry.Time fmttr.DateTimeFormat ++ " [".toList ++
            levelString entry.Level ++ "]: ".toList ++ entry.Message ++
            fieldsBlock ++ errorLine
          err := none } := by
  obtain ⟨fieldsBlock, hf⟩ := renderFields_total (terminalInit fmttr entry).1 entry
  refine ⟨fieldsBlock, (renderError entry).1, hf, ?_, ?_⟩
  · rw [← renderError_snd entry]
  · rw [Format_eq fmttr entry fieldsBlock hf]; rfl

/-! ## Independence of the iteration order -/

theorem mapLookup_eq_none (m : Fields) (k : GoString) (h : k ∉ keys m) :
    mapLookup m k = none := by
  induction m with
  | nil => rfl
  | cons p ps ih =>
    obtain ⟨k', v⟩ := p
    simp only [keys, List.map_cons, List.mem_cons, not_or] at h
    simp only [mapLookup]
    rw [if_neg (fun e => h.1 e.symm)]
    exact ih h.2

theorem mapLookup_perm {m₁ m₂ : Fields} (hp : m₁.Perm m₂) (hnd : (keys m₁).Nodup)
    (k : GoString) : mapLookup m₁ k = mapLookup m₂ k := by
  induction hp with
  | nil => rfl
  | cons p _ ih =>
    obtain ⟨k', v⟩ := p
    simp only [keys, List.map_cons, List.nodup_cons] at hnd
    simp only [mapLookup]
    rw [ih hnd.2]
  | swap p q l =>
    obtain ⟨kp, vp⟩ := p
    obtain ⟨kq, vq⟩ := q
    simp only [keys, List.map_cons, List.nodup_cons, List.mem_cons, not_or] at hnd
    simp only [mapLookup]
    by_cases h1 : kp = k
    · by_cases h2 : kq = k
      · exact absurd (h2.trans h1.symm) hnd.1.1
      · simp [h1, h2]
    · simp [h1]
  | trans h₁ _ ih₁ ih₂ =>
    exact (ih₁ hnd).trans (ih₂ ((h₁.map Prod.fst).nodup_iff.mp hnd))

theorem maxKeyLen_perm {m₁ m₂ : Fields} (hp : m₁.Perm m₂) : maxKeyLen m₁ = maxKeyLen m₂ := by
  unfold maxKeyLen keys
  exact ((hp.map Prod.fst).map List.length).foldr_eq' (fun a _ b _ c => by omega) 0

theorem compactLoop_congr (d₁ d₂ : Fields) (wrapWidth offset : Int) :
    ∀ (ks : List GoString) (acc : GoString × GoString),
      (∀ k ∈ ks, k ≠ errorKey → mapIndex d₁ k = mapIndex d₂ k) →
      compactLoop d₁ wrapWidth offset ks acc = compactLoop d₂ wrapWidth offset ks acc
  | [], _, _ => rfl
  | k :: ks, (lines, cur), h => by
    have ih := fun acc => compactLoop_congr d₁ d₂ wrapWidth offset ks acc
      (fun k' hk' => h k' (List.mem_cons_of_mem _ hk'))
    by_cases hk : k = errorKey
    · simp only [compactLoop, hk, if_true]
      exact ih _
    · simp only [compactLoop, hk, if_false, h k (List.mem_cons_self _ _) hk, ih]

theorem longLoop_congr (d₁ d₂ : Fields) (spacer : GoString) (width : Int) :
    ∀ (ks : List GoString) (lines : GoString),
      (∀ k ∈ ks, k ≠ errorKey → mapIndex d₁ k = mapIndex d₂ k) →
      longLoop d₁ spacer width ks lines = longLoop d₂ spacer width ks lines
  | [], _, _ => rfl
  | k :: ks, lines, h => by
    have ih := fun acc => longLoop_congr d₁ d₂ spacer width ks acc
      (fun k' hk' => h k' (List.mem_cons_of_mem _ hk'))
    by_cases hk : k = errorKey
    · simp only [longLoop, hk, if_true]
      exact ih _
    · simp only [longLoop, hk, if_false, h k (List.mem_cons_self _ _) hk, ih]

/-- The fields block depends on the map only through the length of the map,
the sorted key sequence, the longest key length and the values of the keys
other than the reserved one. -/
theorem renderFields_congr (fmttr : Formatter) (e₁ e₂ : Entry)
    (hlen : e₁.Data.length = e₂.Data.length)
    (hord : fieldOrder e₁ = fieldOrder e₂)
    (hmax : maxKeyLen e₁.Data = maxKeyLen e₂.Data)
    (hval : ∀ k, k ≠ errorKey → mapIndex e₁.Data k = mapIndex e₂.Data k) :
    renderFields fmttr e₁ = renderFields fmttr e₂ := by
  have hc : renderFieldsCompact fmttr e₁ = renderFieldsCompact fmttr e₂ := by
    have h : compactLoop e₁.Data fmttr.termInfo.WidthCols 4 (fieldOrder e₂)
        = compactLoop e₂.Data fmttr.termInfo.WidthCols 4 (fieldOrder e₂) :=
      funext fun acc => compactLoop_congr e₁.Data e₂.Data _ _ _ acc (fun k _ hk => hval k hk)
    simp only [renderFieldsCompact, hord, h]
  have hl : renderFieldsLong fmttr e₁ = renderFieldsLong fmttr e₂ := by
    have h : ∀ spacer width, longLoop e₁.Data spacer width (fieldOrder e₂)
        = longLoop e₂.Data spacer width (fieldOrder e₂) := fun spacer width =>
      funext fun acc => longLoop_congr e₁.Data e₂.Data spacer width _ acc
        (fun k _ hk => hval k hk)
    simp only [renderFieldsLong, hord, longestKeyLen_eq, hmax, h]
  simp only [renderFields, hlen, hc, hl]

/-- C2: for every entry (a map holds each key once), `fieldOrder` returns a
list in strictly ascending order of the case-sensitive, bytewise lexicographic
comparison that is a permutation of the key set of the entry's fields: every
key occurs in it, and occurs once, the reserved key "error" included when present. -/
theorem fieldOrder_sorted_permutation (entry : Entry) (hnd : (keys entry.Data).Nodup) :
    List.Pairwise (fun a b => strLess a b = true) (fieldOrder entry) ∧
    (fieldOrder entry).Perm (keys entry.Data) ∧
    (fieldOrder entry).Nodup ∧
    (∀ k, k ∈ fieldOrder entry ↔ k ∈ keys entry.Data) ∧
    (errorKey ∈ keys entry.Data → errorKey ∈ fieldOrder entry) := by
  have hperm := fieldOrder_perm entry
  have hnd' : (fieldOrder entry).Nodup := hperm.nodup_iff.mpr hnd
  have hs : List.Pairwise strLe (fieldOrder entry) := by
    rw [fieldOrder_eq]; exact sortStrings_sorted _
  refine ⟨?_, hperm, hnd', mem_fieldOrder entry, fun h => (mem_fieldOrder entry errorKey).mpr h⟩
  · refine (hs.and hnd').imp ?_
    intro a b hab
    rcases strLess_trichotomy a b with h | h | h
    · exact h
    · exact absurd h hab.2
    · have := hab.1; unfold strLe at this; rw [h] at this; exact absurd this (by decide)

/-- Witness of C2 on the demo's entry with an error attached: the keys
power_level, dance, error are returned as dance, error, power_level. -/
theorem fieldOrder_sorted_permutation_witness :
    (keys (demoErrorEntry [] []).Data).Nodup ∧
    fieldOrder (demoErrorEntry [] []) =
      ["dance".toList, "error".toList, "power_level".toList] ∧
    List.Pairwise (fun a b => strLess a b = true) (fieldOrder (demoErrorEntry [] [])) ∧
    (fieldOrder (demoErrorEntry [] [])).Perm (keys (demoErrorEntry [] []).Data) :=
  have h := fieldOrder_sorted_permutation (demoErrorEntry [] []) (by decide)
  ⟨by decide, by decide, h.1, h.2.1⟩

/-- C3: two entries whose field maps hold the same key/value pairs, visited in
a different order, get the same key sequence from `fieldOrder` and the same
fields block from `renderFields`, in both layouts. -/
theorem fieldOrder_renderFields_deterministic (fmttr : Formatter) (e₁ e₂ : Entry)
    (hp : e₁.Data.Perm e₂.Data) (hnd : (keys e₁.Data).Nodup) :
    fieldOrder e₁ = fieldOrder e₂ ∧ renderFields fmttr e₁ = renderFields fmttr e₂ := by
  have hord : fieldOrder e₁ = fieldOrder e₂ := by
    rw [fieldOrder_eq, fieldOrder_eq]
    exact sortStrings_congr (hp.map Prod.fst)
  refine ⟨hord, renderFields_congr fmttr e₁ e₂ hp.length_eq hord (maxKeyLen_perm hp) ?_⟩
  intro k _
  simp only [mapIndex, mapLookup_perm hp hnd k]

/-- Witness of C3: the demo's fields visited as power_level, dance and as
dance, power_level. -/
theorem fieldOrder_renderFields_deterministic_witness :
    (demoEntry [] []).Data.Perm demoFields.reverse ∧
    (keys (demoEntry [] []).Data).Nodup ∧
    fieldOrder (demoEntry [] []) =
      fieldOrder { demoEntry [] [] with Data := demoFields.reverse } ∧
    renderFields NewHumanizeFormatter (demoEntry [] []) =
      renderFields NewHumanizeFormatter { demoEntry [] [] with Data := demoFields.reverse } :=
  ⟨List.reverse_perm _ |>.symm, by decide,
    fieldOrder_renderFields_deterministic NewHumanizeFormatter (demoEntry [] [])
      { demoEntry [] [] with Data := demoFields.reverse } (List.reverse_perm _ |>.symm)
      (by decide)⟩

/-- C4: for every entry with at least one field and every `DateTimeFormat`,
`renderFieldsLong` returns "\n" ++ spaces((1+len(DateTimeFormat))/2) ++
"Fields:" followed, for each key k other than "error" in ascending sorted
order, by "\n" ++ spaces(1+len(DateTimeFormat)) ++ k ++ ": " ++
spaces(M + 2 - len(k)) ++ text(value of k), where M is the longest key length
over all keys, "error" included; nothing follows the last field line. -/
theorem renderFieldsLong_layout (fmttr : Formatter) (entry : Entry)
    (_hfields : 0 < entry.Data.length) :
    renderFieldsLong fmttr entry =
      some ("\n".toList ++ spaces ((1 + fmttr.DateTimeFormat.length) / 2) ++ "Fields:".toList ++
        ((fieldOrder entry).filter fun k => decide (k ≠ errorKey)).flatMap (fun k =>
          "\n".toList ++ spaces (1 + fmttr.DateTimeFormat.length) ++ k ++ ": ".toList ++
            spaces (maxKeyLen entry.Data + 2 - k.length) ++ fmtV (mapIndex entry.Data k)),
        none) := by
  rw [renderFieldsLong_eq]
  simp [shownKeys, longField, List.append_assoc]

/-- Witness of C4: the demo's fields power_level: 9000, dance: "flhargunstow"
under the default formatter give a "Fields:" line, then the dance line, then
the power_level line. -/
theorem renderFieldsLong_layout_witness :
    0 < (demoEntry [] []).Data.length ∧
    renderFieldsLong NewHumanizeFormatter (demoEntry [] []) =
      some (("\n          Fields:" ++
        "\n                    dance:         flhargunstow" ++
        "\n                    power_level:   9000").toList, none) :=
  ⟨by decide, (renderFieldsLong_layout NewHumanizeFormatter (demoEntry [] [])
    (by decide)).trans (by decide)⟩

/-- C5: for every formatter state (hence every terminal width) and every
entry, the compact fields block is "\n" ++ 8 spaces followed, for each key k
other than "error" in ascending sorted order, by sep_k ++ k ++ ": " ++
text(value of k), where each sep_k is a tab or "\n" ++ 4 spaces: each field is
emitted whole and once, and no break is put inside a field's text. -/
theorem renderFieldsCompact_fields_whole (fmttr : Formatter) (entry : Entry) :
    ∃ seps : List GoString,
      seps.length = ((fieldOrder entry).filter fun k => decide (k ≠ errorKey)).length ∧
      (∀ s ∈ seps, s = "\t".toList ∨ s = "\n".toList ++ spaces 4) ∧
      renderFieldsCompact fmttr entry =
        some ("\n".toList ++ spaces 8 ++
          (List.zipWith (fun s k => s ++ (k ++ ": ".toList ++ fmtV (mapIndex entry.Data k))) seps
            ((fieldOrder entry).filter fun k => decide (k ≠ errorKey))).flatten, none) :=
  renderFieldsCompact_seps fmttr entry

/-! ## Wrapping in the compact layout -/

theorem compactLoop_filter (data : Fields) (wrapWidth offset : Int) :
    ∀ (ks : List GoString) (acc : GoString × GoString),
      compactLoop data wrapWidth offset ks acc =
        compactLoop data wrapWidth offset (ks.filter fun k => decide (k ≠ errorKey)) acc
  | [], _ => rfl
  | k :: ks, (lines, cur) => by
    have ih := compactLoop_filter data wrapWidth offset ks
    by_cases hk : k = errorKey
    · simp only [compactLoop, hk, if_true]
      rw [ih]
      simp
    · rw [List.filter_cons_of_pos (by simpa using hk)]
      simp only [compactLoop, hk, if_false, ih]

theorem compactLoop_all_tabs (data : Fields) (wrapWidth : Int) :
    ∀ (ks : List GoString) (lines cur : GoString),
      (∀ k ∈ ks, k ≠ errorKey) →
      ((cur.length + (ks.map fun k => 1 + (compactField data k).length).sum : Nat) : Int)
        < wrapWidth →
      compactLoop data wrapWidth 4 ks (lines, cur) =
        some (lines, cur ++ ks.flatMap fun k => tabSep ++ compactField data k)
  | [], lines, cur, _, _ => by simp [compactLoop]
  | k :: ks, lines, cur, hne, h => by
    have hk : k ≠ errorKey := hne k (List.mem_cons_self _ _)
    have hlen : (k ++ ": ".toList ++ fmtV (mapIndex data k)).length
        = (compactField data k).length := rfl
    have hcur : (cur ++ "\t".toList ++ (k ++ ": ".toList ++ fmtV (mapIndex data k))).length
        = cur.length + (1 + (compactField data k).length) := by
      rw [List.length_append, List.length_append, hlen]
      have : "\t".toList.length = 1 := rfl
      omega
    simp only [List.map_cons, List.sum_cons] at h
    have hw : ¬ (((k ++ ": ".toList ++ fmtV (mapIndex data k)).length : Int)
        + (cur.length : Int) > wrapWidth) := by
      rw [hlen]; omega
    simp only [compactLoop, hk, if_false, hw]
    rw [compactLoop_all_tabs data wrapWidth ks lines _
      (fun k' hk' => hne k' (List.mem_cons_of_mem _ hk')) (by rw [hcur]; omega)]
    simp [tabSep, compactField, List.append_assoc]

theorem compactLoop_all_wraps (data : Fields) (wrapWidth : Int) (hw : wrapWidth ≤ 0) :
    ∀ (ks : List GoString) (lines cur : GoString),
      (∀ k ∈ ks, k ≠ errorKey) → cur ≠ [] →
      ∃ lines' cur' : GoString,
        compactLoop data wrapWidth 4 ks (lines, cur) = some (lines', cur') ∧
        cur' ≠ [] ∧
        lines' ++ cur' = lines ++ cur ++ ks.flatMap fun k => wrapSep ++ compactField data k
  | [], lines, cur, _, hcur => ⟨lines, cur, by simp [compactLoop, hcur]⟩
  | k :: ks, lines, cur, hne, hcur => by
    have hk : k ≠ errorKey := hne k (List.mem_cons_self _ _)
    have hgt : ((k ++ ": ".toList ++ fmtV (mapIndex data k)).length : Int)
        + (cur.length : Int) > wrapWidth := by
      have : 0 < cur.length := List.length_pos.mpr hcur
      omega
    obtain ⟨l', c', h1, h2, h3⟩ :=
      compactLoop_all_wraps data wrapWidth hw ks (lines ++ cur)
        (wrapSep ++ compactField data k)
        (fun k' hk' => hne k' (List.mem_cons_of_mem _ hk')) (by simp [wrapSep])
    refine ⟨l', c', ?_, h2, ?_⟩
    · simp only [compactLoop, hk, if_false, hgt, if_true, newLineWithOffset_four]
      exact h1
    · simp [h3, List.append_assoc]

theorem shownKeys_ne (entry : Entry) : ∀ k ∈ shownKeys entry, k ≠ errorKey := by
  intro k hk
  simpa using (List.mem_filter.mp hk).2

theorem renderFieldsCompact_of_loop (fmttr : Formatter) (entry : Entry)
    (lines cur : GoString) (hcur : cur ≠ [])
    (h : compactLoop entry.Data fmttr.termInfo.WidthCols 4 (shownKeys entry)
      (wrapSep, spaces 4) = some (lines, cur)) :
    renderFieldsCompact fmttr entry = some (lines ++ cur, none) := by
  have hsp : stringsRepeat " ".toList 4 = some (spaces 4) := by
    have := stringsRepeat_space 4
    simpa only [Nat.cast_ofNat] using this
  have h' : compactLoop entry.Data fmttr.termInfo.WidthCols 4 (fieldOrder entry)
      (wrapSep, spaces 4) = some (lines, cur) := by
    rw [compactLoop_filter]; exact h
  simp only [renderFieldsCompact, newLineWithOffset_four, hsp, h', hcur, not_false_eq_true,
    if_true]

theorem not_mem_spaces (n : Nat) : '\n' ∉ spaces n := by
  intro h
  have := List.eq_of_mem_replicate h
  exact absurd this (by decide)

/-- C6, the code at width 10 on the entry with the single field ab: "cd": the
field text "ab: cd" has 6 characters and the current line has 4, the test
`6 + 4 > 10` fails, so the field is appended by a tab. The current line then
has 11 characters and the line of the block that holds it has 15, both more
than the width 10. -/
theorem renderFieldsCompact_line_exceeds_width :
    compactLoop shortEntry.Data 10 4 (fieldOrder shortEntry)
        ("\n    ".toList, "    ".toList) = some ("\n    ".toList, "    \tab: cd".toList) ∧
    "    \tab: cd".toList.length = 11 ∧
    renderFieldsCompact (compactFormatter 10) shortEntry =
      some ("\n        \tab: cd".toList, none) ∧
    textLines "\n        \tab: cd".toList = [[], "        \tab: cd".toList] ∧
    "        \tab: cd".toList.length = 15 := by
  decide

/-- C7: when the combined length of the 4-space offset and of all fields
other than "error", each as `<key>: <value>` preceded by a tab, is less than
the width, the compact block is "\n", 4 spaces, and one line that holds 4
more spaces and all those fields in sorted order, each preceded by a tab; the
renderer puts no newline on that line: it has one only where a key or a value
has one in its own text. -/
theorem renderFieldsCompact_single_line (fmttr : Formatter) (entry : Entry)
    (h : (compactTotal entry : Int) < fmttr.termInfo.WidthCols) :
    renderFieldsCompact fmttr entry =
      some ("\n".toList ++ (spaces 4 ++ (spaces 4 ++
        ((fieldOrder entry).filter fun k => decide (k ≠ errorKey)).flatMap fun k =>
          "\t".toList ++ (k ++ ": ".toList ++ fmtV (mapIndex entry.Data k)))), none) ∧
    ((∀ k ∈ (fieldOrder entry).filter fun k => decide (k ≠ errorKey),
        '\n' ∉ k ++ ": ".toList ++ fmtV (mapIndex entry.Data k)) →
      '\n' ∉ spaces 4 ++ (spaces 4 ++
        ((fieldOrder entry).filter fun k => decide (k ≠ errorKey)).flatMap fun k =>
          "\t".toList ++ (k ++ ": ".toList ++ fmtV (mapIndex entry.Data k)))) := by
  constructor
  · have hloop := compactLoop_all_tabs entry.Data fmttr.termInfo.WidthCols (shownKeys entry)
      wrapSep (spaces 4) (shownKeys_ne entry) (by
        have : (spaces 4).length = 4 := rfl
        rw [this]; exact h)
    rw [renderFieldsCompact_of_loop fmttr entry _ _ (by simp [spaces]) hloop]
    simp [wrapSep, tabSep, compactField, shownKeys, List.append_assoc]
  · intro hno hmem
    simp only [List.mem_append, List.mem_flatMap] at hmem
    rcases hmem with hmem | hmem | ⟨k, hk, hmem | hmem⟩
    · exact not_mem_spaces 4 hmem
    · exact not_mem_spaces 4 hmem
    · exact absurd hmem (by decide)
    · exact hno k hk (by simpa [List.append_assoc] using hmem)

/-- Witness of C7: the demo's fields power_level: 9000, dance: "flhargunstow"
at width 80 (combined length 42) give one line holding "dance: flhargunstow",
a tab, "power_level: 9000". -/
theorem renderFieldsCompact_single_line_witness :
    (compactTotal (demoEntry [] []) : Int) < (compactFormatter 80).termInfo.WidthCols ∧
    renderFieldsCompact (compactFormatter 80) (demoEntry [] []) =
      some ("\n        \tdance: flhargunstow\tpower_level: 9000".toList, none) :=
  ⟨by decide, (renderFieldsCompact_single_line (compactFormatter 80) (demoEntry [] [])
    (by decide)).1.trans (by decide)⟩

/-- C8, counterexample: with the non-terminal `TermInfo` (width 0) cached, the
demo's fields are put on two lines, "dance: flhargunstow" and
"power_level: 9000", each after "\n" and 4 spaces; this is not the block
rendered at width 80, which is larger than the combined length 42. -/
theorem renderFieldsCompact_nonTerminal_counterexample :
    (compactTotal (demoEntry [] []) : Int) < 80 ∧
    renderFieldsCompact nonTerminalFormatter (demoEntry [] []) =
      some ("\n        \n    dance: flhargunstow\n    power_level: 9000".toList, none) ∧
    renderFieldsCompact nonTerminalFormatter (demoEntry [] []) ≠
      renderFieldsCompact (compactFormatter 80) (demoEntry [] []) := by
  decide

/-- C8, amended: when the formatter's `TermInfo` is the non-terminal value
(is_terminal = false, width 0), the compact renderer wraps at width 0: for
every entry the compact block is "\n" ++ 8 spaces followed, for each key k
other than "error" in ascending sorted order, by "\n" ++ 4 spaces ++ k ++
": " ++ text(value of k), every field on a line of its own. -/
theorem renderFieldsCompact_nonTerminal (fmttr : Formatter) (entry : Entry)
    (h : fmttr.termInfo = ⟨false, 0, 0⟩) :
    renderFieldsCompact fmttr entry =
      some ("\n".toList ++ spaces 8 ++
        ((fieldOrder entry).filter fun k => decide (k ≠ errorKey)).flatMap (fun k =>
          "\n".toList ++ spaces 4 ++ (k ++ ": ".toList ++ fmtV (mapIndex entry.Data k))),
        none) := by
  have hw : fmttr.termInfo.WidthCols ≤ 0 := by rw [h]
  obtain ⟨l', c', h1, h2, h3⟩ :=
    compactLoop_all_wraps entry.Data fmttr.termInfo.WidthCols hw (shownKeys entry)
      wrapSep (spaces 4) (shownKeys_ne entry) (by simp [spaces])
  rw [renderFieldsCompact_of_loop fmttr entry l' c' h2 h1, h3]
  simp [wrapSep, compactField, shownKeys, spaces, List.append_assoc]

/-- Witness of C8, amended: the demo's fields under the non-terminal
`TermInfo`. -/
theorem renderFieldsCompact_nonTerminal_witness :
    nonTerminalFormatter.termInfo = ⟨false, 0, 0⟩ ∧
    renderFieldsCompact nonTerminalFormatter (demoEntry [] []) =
      some ("\n".toList ++ spaces 8 ++
        ("\n".toList ++ spaces 4 ++ "dance: flhargunstow".toList ++
          ("\n".toList ++ spaces 4 ++ "power_level: 9000".toList)), none) :=
  ⟨rfl, (renderFieldsCompact_nonTerminal nonTerminalFormatter (demoEntry [] []) rfl).trans
    (by decide)⟩

/-! ## The error line -/

theorem maxKeyLen_keys {m₁ m₂ : Fields} (h : keys m₁ = keys m₂) :
    maxKeyLen m₁ = maxKeyLen m₂ := by
  unfold maxKeyLen; rw [h]

/-- C9: for every entry whose fields hold the key "error" with value v, in
both layouts and for every terminal width, `renderError` returns exactly
"\nERROR: " ++ text(v) and the output of `Format` ends with that string as one
unwrapped segment; when the key is absent `renderError` returns the empty
string. -/
theorem renderError_line (fmttr : Formatter) (entry : Entry) :
    (∀ v, mapLookup entry.Data errorKey = some v →
      renderError entry = ("\nERROR: ".toList ++ fmtV v, none) ∧
      ∃ (r : FormatResult) (fieldsBlock : GoString),
        Format fmttr entry = some r ∧ r.err = none ∧
        r.bytes = headerLine fmttr entry ++ fieldsBlock ++ ("\nERROR: ".toList ++ fmtV v)) ∧
    (mapLookup entry.Data errorKey = none → renderError entry = ([], none)) := by
  constructor
  · intro v hv
    have he : renderError entry = ("\nERROR: ".toList ++ fmtV v, none) := by
      simp only [renderError, hv]
    obtain ⟨fieldsBlock, hf⟩ := renderFields_total (terminalInit fmttr entry).1 entry
    refine ⟨he, _, fieldsBlock, Format_eq fmttr entry fieldsBlock hf, rfl, ?_⟩
    simp only [he]
  · intro hv
    simp only [renderError, hv]

/-- Witness of C9: the demo's error entry, whose error value is
"oh heavens oh no an error eep", in the long and in the compact layout at
width 20, and the demo's entry without an error. -/
theorem renderError_line_witness :
    mapLookup (demoErrorEntry [] []).Data errorKey
      = some (Value.err "oh heavens oh no an error eep".toList) ∧
    renderError (demoErrorEntry [] []) =
      ("\nERROR: oh heavens oh no an error eep".toList, none) ∧
    (∃ (r : FormatResult) (fieldsBlock : GoString),
      Format (compactFormatter 20) (demoErrorEntry [] []) = some r ∧ r.err = none ∧
      r.bytes = headerLine (compactFormatter 20) (demoErrorEntry [] []) ++ fieldsBlock ++
        ("\nERROR: ".toList ++ fmtV (Value.err "oh heavens oh no an error eep".toList))) ∧
    mapLookup (demoEntry [] []).Data errorKey = none ∧
    renderError (demoEntry [] []) = ([], none) :=
  have h := (renderError_line (compactFormatter 20) (demoErrorEntry [] [])).1
    (Value.err "oh heavens oh no an error eep".toList) (by decide)
  ⟨by decide, h.1, h.2, by decide,
    (renderError_line NewHumanizeFormatter (demoEntry [] [])).2 (by decide)⟩

/-- C10: in both layouts the "error" field is not rendered as a generic field.
The fields block of `renderFields` is empty for the empty map and otherwise
that of the layout chosen by `Compact`; the long block is the heading followed
by one line for each sorted key other than "error", and the compact block is
"\n" ++ 8 spaces followed by one segment, after a tab or wrap separator, for
each sorted key other than "error": no segment is emitted for the key "error".
For an entry and a second field map with the same keys in the same order and
the same values under every key other than "error", `renderFields` returns the
same fields block for both, and the two outputs of `Format` are the same
header and fields block followed by the error line of each. -/
theorem renderFields_ignores_error_value (fmttr : Formatter) (entry : Entry) (data : Fields)
    (hkeys : keys data = keys entry.Data)
    (hval : ∀ k, k ≠ errorKey → mapLookup data k = mapLookup entry.Data k) :
    renderFields fmttr { entry with Data := data } = renderFields fmttr entry ∧
    (∃ fieldsBlock : GoString,
      (Format fmttr entry).map (fun r => r.bytes) =
        some (headerLine fmttr entry ++ fieldsBlock ++ (renderError entry).1) ∧
      (Format fmttr { entry with Data := data }).map (fun r => r.bytes) =
        some (headerLine fmttr entry ++ fieldsBlock ++
          (renderError { entry with Data := data }).1)) ∧
    errorKey ∉ (fieldOrder entry).filter (fun k => decide (k ≠ errorKey)) ∧
    renderFields fmttr entry =
      (if entry.Data.length = 0 then some ([], none)
        else if fmttr.Compact = true then renderFieldsCompact fmttr entry
        else renderFieldsLong fmttr entry) ∧
    renderFieldsLong fmttr entry =
      some ("\n".toList ++ spaces ((1 + fmttr.DateTimeFormat.length) / 2) ++ "Fields:".toList ++
        ((fieldOrder entry).filter fun k => decide (k ≠ errorKey)).flatMap (fun k =>
          "\n".toList ++ spaces (1 + fmttr.DateTimeFormat.length) ++ k ++ ": ".toList ++
            spaces (maxKeyLen entry.Data + 2 - k.length) ++ fmtV (mapIndex entry.Data k)),
        none) ∧
    ∃ seps : List GoString,
      seps.length = ((fieldOrder entry).filter fun k => decide (k ≠ errorKey)).length ∧
      (∀ s ∈ seps, s = "\t".toList ∨ s = "\n".toList ++ spaces 4) ∧
      renderFieldsCompact fmttr entry =
        some ("\n".toList ++ spaces 8 ++
          (List.zipWith (fun s k => s ++ (k ++ ": ".toList ++ fmtV (mapIndex entry.Data k))) seps
            ((fieldOrder entry).filter fun k => decide (k ≠ errorKey))).flatten, none) := by
  have hcongr : ∀ f : Formatter,
      renderFields f { entry with Data := data } = renderFields f entry := by
    intro f
    apply renderFields_congr
    · have := congrArg List.length hkeys
      simpa [keys] using this
    · rw [fieldOrder_eq, fieldOrder_eq, hkeys]
    · exact maxKeyLen_keys hkeys
    · intro k hk
      simp only [mapIndex, hval k hk]
  have hformat : ∃ fieldsBlock : GoString,
      (Format fmttr entry).map (fun r => r.bytes) =
        some (headerLine fmttr entry ++ fieldsBlock ++ (renderError entry).1) ∧
      (Format fmttr { entry with Data := data }).map (fun r => r.bytes) =
        some (headerLine fmttr entry ++ fieldsBlock ++
          (renderError { entry with Data := data }).1) := by
    obtain ⟨fieldsBlock, hf⟩ := renderFields_total (terminalInit fmttr entry).1 entry
    refine ⟨fieldsBlock, ?_, ?_⟩
    · rw [Format_eq fmttr entry fieldsBlock hf]; rfl
    · have hf' : renderFields (terminalInit fmttr { entry with Data := data }).1
          { entry with Data := data } = some (fieldsBlock, none) := by
        have : terminalInit fmttr { entry with Data := data } = terminalInit fmttr entry := rfl
        rw [this, hcongr, hf]
      rw [Format_eq fmttr _ fieldsBlock hf']; rfl
  have hlong := renderFieldsLong_eq fmttr entry
  refine ⟨hcongr fmttr, hformat, ?_, ?_, ?_, renderFieldsCompact_seps fmttr entry⟩
  · intro hmem
    have := (List.mem_filter.mp hmem).2
    simp at this
  · unfold renderFields
    cases fmttr.Compact <;> simp
  · rw [hlong]
    simp [shownKeys, longField, List.append_assoc]

/-- Witness of C10: the demo's error entry and the same entry with the error
value "another error": the fields block is the same, and in both layouts it
holds the dance and power_level segments and no segment for the key error. -/
theorem renderFields_ignores_error_value_witness :
    keys (("error".toList, Value.err "another error".toList) :: demoFields)
      = keys (demoErrorEntry [] []).Data ∧
    renderFields NewHumanizeFormatter
      { demoErrorEntry [] [] with
        Data := ("error".toList, Value.err "another error".toList) :: demoFields }
      = renderFields NewHumanizeFormatter (demoErrorEntry [] []) ∧
    renderFields NewHumanizeFormatter (demoErrorEntry [] []) =
      some (("\n          Fields:" ++
        "\n                    dance:         flhargunstow" ++
        "\n                    power_level:   9000").toList, none) ∧
    renderFields (compactFormatter 80) (demoErrorEntry [] []) =
      some ("\n        \tdance: flhargunstow\tpower_level: 9000".toList, none) :=
  ⟨by decide, (renderFields_ignores_error_value NewHumanizeFormatter (demoErrorEntry [] [])
    (("error".toList, Value.err "another error".toList) :: demoFields) (by decide)
    (by
      intro k hk
      have hk' : ¬ ("error".toList = k) := fun e => hk e.symm
      simp only [mapLookup, demoErrorEntry, hk', if_false])).1, by decide, by decide⟩

/-! ## Entries without fields -/

/-- C11: for every entry with zero fields, every layout flag and every
terminal width, the output of `Format` is the header line alone, "\n" ++
timestamp ++ " [" ++ level ++ "]: " ++ message: the fields block and the error
line are both empty. -/
theorem Format_no_fields (fmttr : Formatter) (entry : Entry) (h : entry.Data = []) :
    renderFields (terminalInit fmttr entry).1 entry = some ([], none) ∧
    renderError entry = ([], none) ∧
    Format fmttr entry = some
      { fmttr := (terminalInit fmttr entry).1
        stdout := (terminalInit fmttr entry).2.1
        probes := (terminalInit fmttr entry).2.2
        bytes := "\n".toList ++ entry.Time fmttr.DateTimeFormat ++ " [".toList ++
          levelString entry.Level ++ "]: ".toList ++ entry.Message
        err := none } := by
  have hf : renderFields (terminalInit fmttr entry).1 entry = some ([], none) := by
    simp [renderFields, h]
  have he : renderError entry = ([], none) := by
    simp [renderError, h, mapLookup]
  refine ⟨hf, he, ?_⟩
  rw [Format_eq fmttr entry [] hf, he]
  simp [headerLine]

/-- Witness of C11: the entry without fields, in the compact layout at width
20. -/
theorem Format_no_fields_witness :
    (noFieldsEntry "2019-03-01T10:00:00".toList "hello".toList).Data = [] ∧
    (Format (compactFormatter 20)
        (noFieldsEntry "2019-03-01T10:00:00".toList "hello".toList)).map (fun r => r.bytes)
      = some "\n2019-03-01T10:00:00 [info]: hello".toList :=
  ⟨rfl, by
    rw [(Format_no_fields (compactFormatter 20)
      (noFieldsEntry "2019-03-01T10:00:00".toList "hello".toList) rfl).2.2]
    decide⟩

/-- C12, the code on the entry whose only key is "error": the guard of
`renderFields` tests `len(entry.Data) == 0`, the map has one key, so the
renderers run. The long layout returns the heading "Fields:" with no field
under it, the compact layout returns a newline and 8 spaces, and `Format` puts
that block between the header and the error line. -/
theorem renderFields_error_only_not_empty :
    renderFields NewHumanizeFormatter (errorOnlyEntry [] []) =
      some ("\n          Fields:".toList, none) ∧
    renderFields (compactFormatter 80) (errorOnlyEntry [] []) =
      some ("\n        ".toList, none) ∧
    (Format NewHumanizeFormatter (errorOnlyEntry "ts".toList "msg".toList)).map
        (fun r => r.bytes) =
      some ("\nts [error]: msg" ++ "\n          Fields:" ++
        "\nERROR: oh heavens oh no an error eep").toList := by
  decide

/-! ## Alignment and totality of the long layout -/

/-- C13: in the long layout every field line is the offset, the key, ": ",
the right-padding and the value. For every key other than "error" the key
together with its right-padding takes exactly (longest key length + 2)
characters, so the value starts at the same offset, 1 + len(DateTimeFormat) +
longest key length + 4, from the start of every field line. -/
theorem renderFieldsLong_aligned (fmttr : Formatter) (entry : Entry) :
    renderFieldsLong fmttr entry =
      some ("\n".toList ++ spaces ((1 + fmttr.DateTimeFormat.length) / 2) ++ "Fields:".toList ++
        ((fieldOrder entry).filter fun k => decide (k ≠ errorKey)).flatMap (fun k =>
          "\n".toList ++
            (spaces (1 + fmttr.DateTimeFormat.length) ++ k ++ ": ".toList ++
              spaces (maxKeyLen entry.Data + 2 - k.length)) ++
            fmtV (mapIndex entry.Data k)), none) ∧
    ∀ k ∈ (fieldOrder entry).filter fun k => decide (k ≠ errorKey),
      k.length + (spaces (maxKeyLen entry.Data + 2 - k.length)).length
        = maxKeyLen entry.Data + 2 ∧
      (spaces (1 + fmttr.DateTimeFormat.length) ++ k ++ ": ".toList ++
          spaces (maxKeyLen entry.Data + 2 - k.length)).length
        = 1 + fmttr.DateTimeFormat.length + maxKeyLen entry.Data + 4 := by
  constructor
  · rw [renderFieldsLong_eq]
    simp [shownKeys, longField, List.append_assoc]
  · intro k hk
    have hmem : k ∈ keys entry.Data :=
      (mem_fieldOrder entry k).mp (List.mem_filter.mp hk).1
    have hle := length_le_maxKeyLen entry.Data k hmem
    have h2 : ": ".toList.length = 2 := rfl
    simp only [List.length_append, spaces, List.length_replicate, h2]
    omega

/-- Witness of C13: in the demo's entry under the default formatter the values
of dance and of power_level both start at offset 20 + 11 + 4 = 35. -/
theorem renderFieldsLong_aligned_witness :
    (spaces (1 + NewHumanizeFormatter.DateTimeFormat.length) ++ "dance".toList ++ ": ".toList ++
        spaces (maxKeyLen (demoEntry [] []).Data + 2 - "dance".toList.length)).length = 35 ∧
    (spaces (1 + NewHumanizeFormatter.DateTimeFormat.length) ++ "power_level".toList ++
        ": ".toList ++
        spaces (maxKeyLen (demoEntry [] []).Data + 2 - "power_level".toList.length)).length
      = 35 :=
  ⟨((renderFieldsLong_aligned NewHumanizeFormatter (demoEntry [] [])).2 "dance".toList
      (by decide)).2.trans (by decide),
    ((renderFieldsLong_aligned NewHumanizeFormatter (demoEntry [] [])).2 "power_level".toList
      (by decide)).2.trans (by decide)⟩

/-- C18: `renderFieldsLong` is total. For every entry and every key k of it
the padding count longestKeyLen(fields) + 2 - len(k) is at least 2, the
offsets 1 + len(DateTimeFormat) and (1 + len(DateTimeFormat)) / 2 are not
negative, every call of `strings.Repeat` returns, and `renderFieldsLong`
returns a text and a nil error. -/
theorem renderFieldsLong_total (fmttr : Formatter) (entry : Entry) :
    (∀ k ∈ keys entry.Data, 2 ≤ longestKeyLen entry.Data + 2 - (k.length : Int)) ∧
    0 ≤ 1 + (fmttr.DateTimeFormat.length : Int) ∧
    0 ≤ Int.tdiv (1 + (fmttr.DateTimeFormat.length : Int)) 2 ∧
    (∀ k ∈ fieldOrder entry, ∃ pad : GoString,
      stringsRepeat " ".toList (longestKeyLen entry.Data + 2 - (k.length : Int)) = some pad) ∧
    (∃ spacer : GoString,
      stringsRepeat " ".toList (1 + (fmttr.DateTimeFormat.length : Int)) = some spacer) ∧
    (∃ half : GoString,
      stringsRepeat " ".toList (Int.tdiv (1 + (fmttr.DateTimeFormat.length : Int)) 2)
        = some half) ∧
    ∃ lines : GoString, renderFieldsLong fmttr entry = some (lines, none) := by
  have hpad : ∀ k ∈ keys entry.Data, 2 ≤ longestKeyLen entry.Data + 2 - (k.length : Int) := by
    intro k hk
    have := length_le_maxKeyLen entry.Data k hk
    rw [longestKeyLen_eq]; omega
  have hoff : (0 : Int) ≤ 1 + (fmttr.DateTimeFormat.length : Int) := by omega
  have hhalf : 0 ≤ Int.tdiv (1 + (fmttr.DateTimeFormat.length : Int)) 2 := by
    rw [Int.tdiv_eq_ediv hoff (by omega)]; omega
  have hrep : ∀ n : Int, 0 ≤ n → ∃ s : GoString, stringsRepeat " ".toList n = some s := by
    intro n hn
    exact ⟨(List.replicate n.toNat " ".toList).flatten,
      by simp only [stringsRepeat, not_lt.mpr hn, if_false]⟩
  refine ⟨hpad, hoff, hhalf, ?_, hrep _ hoff, hrep _ hhalf, _, renderFieldsLong_eq fmttr entry⟩
  intro k hk
  have := hpad k ((mem_fieldOrder entry k).mp hk)
  exact hrep _ (by omega)

/-! ## The key column and the "error" key -/

theorem keys_withoutError (entry : Entry) :
    keys (withoutError entry).Data = (keys entry.Data).filter fun k => decide (k ≠ errorKey) := by
  have key : ∀ m : Fields, keys (m.filter fun p => decide (p.1 ≠ errorKey))
      = (keys m).filter fun k => decide (k ≠ errorKey) := by
    intro m
    induction m with
    | nil => rfl
    | cons p ps ih =>
      by_cases hp : p.1 = errorKey
      · simp [keys, List.filter_cons, hp] at ih ⊢
        exact ih
      · simp [keys, List.filter_cons, hp] at ih ⊢
        exact ih
  exact key entry.Data

theorem maxKeyLen_cons (p : GoString × Value) (m : Fields) :
    maxKeyLen (p :: m) = max p.1.length (maxKeyLen m) := rfl

theorem maxKeyLen_withoutError (entry : Entry) (herr : errorKey ∈ keys entry.Data) :
    maxKeyLen entry.Data = max 5 (maxKeyLen (withoutError entry).Data) := by
  have key : ∀ m : Fields,
      maxKeyLen m = if errorKey ∈ keys m
        then max 5 (maxKeyLen (m.filter fun p => decide (p.1 ≠ errorKey)))
        else maxKeyLen (m.filter fun p => decide (p.1 ≠ errorKey)) := by
    intro m
    induction m with
    | nil => simp [keys, maxKeyLen]
    | cons p ps ih =>
      have h5 : errorKey.length = 5 := rfl
      by_cases hp : p.1 = errorKey
      · have hmem : errorKey ∈ keys (p :: ps) := by
          rw [← hp]; exact List.mem_cons_self p.1 (keys ps)
        have hf : (p :: ps).filter (fun p => decide (p.1 ≠ errorKey))
            = ps.filter (fun p => decide (p.1 ≠ errorKey)) := by
          simp [List.filter_cons, hp]
        rw [if_pos hmem, hf, maxKeyLen_cons, ih, hp, h5]
        split_ifs <;> omega
      · have hf : (p :: ps).filter (fun p => decide (p.1 ≠ errorKey))
            = p :: ps.filter (fun p => decide (p.1 ≠ errorKey)) := by
          simp [List.filter_cons, hp]
        rw [hf, maxKeyLen_cons, maxKeyLen_cons, ih]
        have hiff : errorKey ∈ keys (p :: ps) ↔ errorKey ∈ keys ps := by
          simp only [keys, List.map_cons, List.mem_cons]
          constructor
          · rintro (h | h)
            · exact absurd h.symm hp
            · exact h
          · exact Or.inr
        by_cases hm : errorKey ∈ keys ps
        · rw [if_pos hm, if_pos (hiff.mpr hm)]; omega
        · rw [if_neg hm, if_neg (fun h => hm (hiff.mp h))]
  have := key entry.Data
  rw [if_pos herr] at this
  exact this

theorem mapIndex_withoutError (entry : Entry) (k : GoString) (hk : k ≠ errorKey) :
    mapIndex (withoutError entry).Data k = mapIndex entry.Data k := by
  have key : ∀ m : Fields,
      mapLookup (m.filter fun p => decide (p.1 ≠ errorKey)) k = mapLookup m k := by
    intro m
    induction m with
    | nil => rfl
    | cons p ps ih =>
      obtain ⟨k', v⟩ := p
      by_cases hp : k' = errorKey
      · have hf : ((k', v) :: ps).filter (fun p => decide (p.1 ≠ errorKey))
            = ps.filter (fun p => decide (p.1 ≠ errorKey)) := by
          simp [List.filter_cons, hp]
        have hne : ¬ (k' = k) := fun e => hk (e.symm.trans hp)
        rw [hf]
        simp only [mapLookup, hne, if_false, ih]
      · have hf : ((k', v) :: ps).filter (fun p => decide (p.1 ≠ errorKey))
            = (k', v) :: ps.filter (fun p => decide (p.1 ≠ errorKey)) := by
          simp [List.filter_cons, hp]
        rw [hf]
        simp only [mapLookup, ih]
  simp only [mapIndex, withoutError, key]

theorem shownKeys_withoutError (entry : Entry) :
    shownKeys (withoutError entry) = shownKeys entry := by
  have hne : ∀ k ∈ sortStrings ((keys entry.Data).filter fun k => decide (k ≠ errorKey)),
      decide (k ≠ errorKey) = true := by
    intro k hk
    exact (List.mem_filter.mp ((sortStrings_perm _).mem_iff.mp hk)).2
  unfold shownKeys
  rw [fieldOrder_eq, fieldOrder_eq, keys_withoutError, List.filter_eq_self.mpr hne]
  exact List.eq_of_perm_of_sorted (r := strLe)
    ((sortStrings_perm _).trans ((sortStrings_perm _).filter _).symm)
    (sortStrings_sorted _) ((sortStrings_sorted _).filter _)

theorem maxKeyLen_lt (m : Fields) (n : Nat) (hn : 0 < n)
    (h : ∀ k ∈ keys m, k.length < n) : maxKeyLen m < n := by
  induction m with
  | nil => simpa [maxKeyLen, keys] using hn
  | cons p ps ih =>
    have h1 : p.1.length < n := h p.1 (List.mem_cons_self _ _)
    have h2 := ih (fun k hk => h k (List.mem_cons_of_mem _ hk))
    rw [maxKeyLen_cons]; omega

theorem flatMap_congr_mem {α β : Type} (l : List α) (f g : α → List β)
    (h : ∀ a ∈ l, f a = g a) : l.flatMap f = l.flatMap g := by
  induction l with
  | nil => rfl
  | cons a as ih =>
    simp only [List.flatMap_cons]
    rw [h a (List.mem_cons_self _ _), ih (fun b hb => h b (List.mem_cons_of_mem _ hb))]

/-- C17: the key column of the long layout is computed over all keys, the
reserved key "error" (5 characters) included. For an entry with an "error"
field, when every other key is shorter than 5 characters every field line
carries exactly (5 - longest other key length) more padding spaces than the
line of the same field in the entry without the "error" field; when some other
key has 5 characters or more the two long blocks are equal. -/
theorem renderFieldsLong_error_key_widens (fmttr : Formatter) (entry : Entry)
    (herr : errorKey ∈ keys entry.Data) :
    ((∀ k ∈ keys entry.Data, k ≠ errorKey → k.length < 5) →
      renderFieldsLong fmttr entry =
        some ("\n".toList ++ spaces ((1 + fmttr.DateTimeFormat.length) / 2) ++
          "Fields:".toList ++
          (shownKeys entry).flatMap (fun k =>
            "\n".toList ++ spaces (1 + fmttr.DateTimeFormat.length) ++ k ++ ": ".toList ++
              spaces (maxKeyLen (withoutError entry).Data + 2 - k.length +
                (5 - maxKeyLen (withoutError entry).Data)) ++
              fmtV (mapIndex entry.Data k)), none) ∧
      renderFieldsLong fmttr (withoutError entry) =
        some ("\n".toList ++ spaces ((1 + fmttr.DateTimeFormat.length) / 2) ++
          "Fields:".toList ++
          (shownKeys entry).flatMap (fun k =>
            "\n".toList ++ spaces (1 + fmttr.DateTimeFormat.length) ++ k ++ ": ".toList ++
              spaces (maxKeyLen (withoutError entry).Data + 2 - k.length) ++
              fmtV (mapIndex entry.Data k)), none)) ∧
    ((∃ k ∈ keys entry.Data, k ≠ errorKey ∧ 5 ≤ k.length) →
      renderFieldsLong fmttr (withoutError entry) = renderFieldsLong fmttr entry) := by
  have hmax := maxKeyLen_withoutError entry herr
  have hwithout : renderFieldsLong fmttr (withoutError entry) =
      some ("\n".toList ++ spaces ((1 + fmttr.DateTimeFormat.length) / 2) ++
        "Fields:".toList ++
        (shownKeys entry).flatMap (fun k =>
          "\n".toList ++ spaces (1 + fmttr.DateTimeFormat.length) ++ k ++ ": ".toList ++
            spaces (maxKeyLen (withoutError entry).Data + 2 - k.length) ++
            fmtV (mapIndex entry.Data k)), none) := by
    rw [renderFieldsLong_eq, shownKeys_withoutError]
    congr 2
    apply congrArg
    apply flatMap_congr_mem
    intro k hk
    simp only [longField, mapIndex_withoutError entry k (shownKeys_ne entry k hk),
      List.append_assoc]
  constructor
  · intro hshort
    have hlt : maxKeyLen (withoutError entry).Data < 5 := by
      apply maxKeyLen_lt _ 5 (by omega)
      intro k hk
      rw [keys_withoutError] at hk
      have := List.mem_filter.mp hk
      exact hshort k this.1 (by simpa using this.2)
    refine ⟨?_, hwithout⟩
    rw [renderFieldsLong_eq]
    congr 2
    apply congrArg
    apply flatMap_congr_mem
    intro k hk
    have hklen : k.length ≤ maxKeyLen (withoutError entry).Data := by
      apply length_le_maxKeyLen
      rw [keys_withoutError]
      exact List.mem_filter.mpr
        ⟨(mem_fieldOrder entry k).mp (List.mem_filter.mp hk).1, (List.mem_filter.mp hk).2⟩
    have hw : maxKeyLen entry.Data + 2 - k.length
        = maxKeyLen (withoutError entry).Data + 2 - k.length
          + (5 - maxKeyLen (withoutError entry).Data) := by omega
    simp only [longField, hw, List.append_assoc]
  · rintro ⟨k, hk, hne, hlen⟩
    have hge : 5 ≤ maxKeyLen (withoutError entry).Data := by
      have : k ∈ keys (withoutError entry).Data := by
        rw [keys_withoutError]
        exact List.mem_filter.mpr ⟨hk, by simpa using hne⟩
      have := length_le_maxKeyLen _ k this
      omega
    rw [hwithout, renderFieldsLong_eq]
    have hw : maxKeyLen entry.Data = maxKeyLen (withoutError entry).Data := by omega
    simp only [longField, hw, List.append_assoc]

/-- Witness of C17: with the keys op, error, id the longest other key has 2
characters and every field line carries 3 more spaces than without the error;
in the demo's error entry the key power_level has 11 characters and the two
blocks are equal. -/
theorem renderFieldsLong_error_key_widens_witness :
    errorKey ∈ keys shortKeysErrorEntry.Data ∧
    (∀ k ∈ keys shortKeysErrorEntry.Data, k ≠ errorKey → k.length < 5) ∧
    renderFieldsLong NewHumanizeFormatter shortKeysErrorEntry =
      some (("\n          Fields:" ++
        "\n                    id:      7" ++
        "\n                    op:      get").toList, none) ∧
    renderFieldsLong NewHumanizeFormatter (withoutError shortKeysErrorEntry) =
      some (("\n          Fields:" ++
        "\n                    id:   7" ++
        "\n                    op:   get").toList, none) ∧
    renderFieldsLong NewHumanizeFormatter (withoutError (demoErrorEntry [] []))
      = renderFieldsLong NewHumanizeFormatter (demoErrorEntry [] []) :=
  have hshort : ∀ k ∈ keys shortKeysErrorEntry.Data, k ≠ errorKey → k.length < 5 := by decide
  have h := (renderFieldsLong_error_key_widens NewHumanizeFormatter shortKeysErrorEntry
    (by decide)).1 hshort
  ⟨by decide, hshort, h.1.trans (by decide), h.2.trans (by decide),
    (renderFieldsLong_error_key_widens NewHumanizeFormatter (demoErrorEntry [] [])
      (by decide)).2 ⟨"power_level".toList, by decide, by decide, by decide⟩⟩

/-! ## The terminal information is resolved once -/

theorem terminalInit_done (fmttr : Formatter) (entry : Entry) :
    (terminalInit fmttr entry).1.terminalInitOnce = true := by
  unfold terminalInit
  split
  · assumption
  · split <;> rfl

theorem terminalInit_of_done (fmttr : Formatter) (entry : Entry)
    (h : fmttr.terminalInitOnce = true) : terminalInit fmttr entry = (fmttr, [], 0) := by
  simp [terminalInit, h]

theorem initTermInfo_probes (fmttr : Formatter) (entry : Entry) :
    (initTermInfo fmttr entry).2.2.2 = if entry.Logger.isSome = true then 1 else 0 := by
  unfold initTermInfo
  cases entry.Logger with
  | none => rfl
  | some logger =>
    simp only [Option.isSome_some, if_true]
    split <;> rfl

theorem terminalInit_probes (fmttr : Formatter) (entry : Entry) :
    (terminalInit fmttr entry).2.2 =
      if fmttr.terminalInitOnce = true then 0
      else if entry.Logger.isSome = true then 1 else 0 := by
  have hi := initTermInfo_probes fmttr entry
  unfold terminalInit
  by_cases h : fmttr.terminalInitOnce = true
  · simp [h]
  · have hb : fmttr.terminalInitOnce = false := Bool.eq_false_iff.mpr h
    rw [hb]
    simp only [Bool.false_eq_true, if_false]
    split <;> rename_i heq <;> rw [heq] at hi <;> exact hi

theorem Format_total (fmttr : Formatter) (entry : Entry) :
    ∃ fieldsBlock : GoString,
      renderFields (terminalInit fmttr entry).1 entry = some (fieldsBlock, none) ∧
      Format fmttr entry = some
        { fmttr := (terminalInit fmttr entry).1
          stdout := (terminalInit fmttr entry).2.1
          probes := (terminalInit fmttr entry).2.2
          bytes := headerLine fmttr entry ++ fieldsBlock ++ (renderError entry).1
          err := none } := by
  obtain ⟨fieldsBlock, hf⟩ := renderFields_total (terminalInit fmttr entry).1 entry
  exact ⟨fieldsBlock, hf, Format_eq fmttr entry fieldsBlock hf⟩

theorem terminalInit_query_fails (fmttr : Formatter) (entry : Entry) (e : GoError)
    (hfirst : fmttr.terminalInitOnce = false)
    (hfail : entry.Logger = some ⟨Writer.file true (Except.error e)⟩) :
    terminalInit fmttr entry =
      ({ fmttr with terminalInitOnce := true },
        "Failed to initialize terminal with err ".toList ++ e, 1) := by
  simp [terminalInit, hfirst, initTermInfo, hfail, GetTermInfo]

/-- C14: `Format` never aborts. For every formatter state and every entry it
returns a nil error and the rendered text header ++ fields ++ error line. When
the terminal-info query fails on the first call, the failure is printed, the
cached `TermInfo` is left as it was, which for a formatter that has not yet
rendered is the zero value (is_terminal = false, width 0), and the text is the
one rendered with it. -/
theorem Format_never_aborts (fmttr : Formatter) (entry : Entry) :
    (∃ (r : FormatResult) (fieldsBlock : GoString),
      Format fmttr entry = some r ∧ r.err = none ∧
      renderFields r.fmttr entry = some (fieldsBlock, none) ∧
      r.bytes = headerLine fmttr entry ++ fieldsBlock ++ (renderError entry).1) ∧
    (∀ e : GoError, fmttr.terminalInitOnce = false →
      entry.Logger = some ⟨Writer.file true (Except.error e)⟩ →
      ∃ (r : FormatResult) (fieldsBlock : GoString),
        Format fmttr entry = some r ∧ r.err = none ∧
        r.stdout = "Failed to initialize terminal with err ".toList ++ e ∧
        r.fmttr = { fmttr with terminalInitOnce := true } ∧
        (fmttr.termInfo = TermInfo.zero → r.fmttr.termInfo = ⟨false, 0, 0⟩) ∧
        renderFields { fmttr with terminalInitOnce := true } entry = some (fieldsBlock, none) ∧
        r.bytes = headerLine fmttr entry ++ fieldsBlock ++ (renderError entry).1) := by
  obtain ⟨fieldsBlock, hf, hF⟩ := Format_total fmttr entry
  refine ⟨⟨_, fieldsBlock, hF, rfl, hf, rfl⟩, ?_⟩
  intro e hfirst hfail
  have ht := terminalInit_query_fails fmttr entry e hfirst hfail
  rw [ht] at hf hF
  exact ⟨_, fieldsBlock, hF, rfl, rfl, rfl, fun h => h, hf, rfl⟩

/-- Witness of C14: the default formatter in the compact layout, first call,
on an entry whose terminal reports no size: the failure is printed and the
fields are rendered at width 0. -/
theorem Format_never_aborts_witness :
    ({ NewHumanizeFormatter with Compact := true } : Formatter).terminalInitOnce = false ∧
    (failingSizeEntry "ioctl".toList).Logger
      = some ⟨Writer.file true (Except.error "ioctl".toList)⟩ ∧
    (∃ (r : FormatResult) (fieldsBlock : GoString),
      Format { NewHumanizeFormatter with Compact := true } (failingSizeEntry "ioctl".toList)
        = some r ∧ r.err = none ∧
      r.stdout = "Failed to initialize terminal with err ".toList ++ "ioctl".toList ∧
      r.fmttr = { NewHumanizeFormatter with Compact := true, terminalInitOnce := true } ∧
      (({ NewHumanizeFormatter with Compact := true } : Formatter).termInfo = TermInfo.zero →
        r.fmttr.termInfo = ⟨false, 0, 0⟩) ∧
      renderFields { NewHumanizeFormatter with Compact := true, terminalInitOnce := true }
        (failingSizeEntry "ioctl".toList) = some (fieldsBlock, none) ∧
      r.bytes = headerLine { NewHumanizeFormatter with Compact := true }
        (failingSizeEntry "ioctl".toList) ++ fieldsBlock ++
          (renderError (failingSizeEntry "ioctl".toList)).1) ∧
    (Format { NewHumanizeFormatter with Compact := true }
        (failingSizeEntry "ioctl".toList)).map (fun r => (r.bytes, r.err))
      = some ("\n [info]: \n        \n    dance: flhargunstow\n    power_level: 9000".toList,
          none) :=
  ⟨rfl, rfl,
    (Format_never_aborts { NewHumanizeFormatter with Compact := true }
      (failingSizeEntry "ioctl".toList)).2 "ioctl".toList rfl rfl,
    by decide⟩

theorem formatCalls_done (fmttr : Formatter) (probes : Nat)
    (h : fmttr.terminalInitOnce = true) :
    ∀ entries : List Entry,
      formatCalls fmttr probes entries = List.replicate entries.length (fmttr, probes)
  | [] => rfl
  | entry :: rest => by
    obtain ⟨fieldsBlock, -, hF⟩ := Format_total fmttr entry
    rw [terminalInit_of_done fmttr entry h] at hF
    simp only [formatCalls, hF, Nat.add_zero, List.length_cons, List.replicate_succ]
    rw [formatCalls_done fmttr probes h rest]

/-- C15: in every sequence of N >= 1 calls of `Format` on one formatter, run
one after the other, every call returns. The number of calls of `GetTermInfo`
that the first call makes, as counted by `Format` itself, is 1 when the
once-flag is not set and the entry has a logger and 0 otherwise, so at most
one; every later call makes none and returns the formatter, so its cached
`TermInfo`, as the first call left it, whatever the later entries carry and
whether or not the first query succeeded. -/
theorem formatCalls_probe_once (fmttr : Formatter) (entry : Entry) (rest : List Entry) :
    ∃ (first : Formatter) (probes : Nat),
      (Format fmttr entry).map (fun r => (r.fmttr, r.probes)) = some (first, probes) ∧
      formatCalls fmttr 0 (entry :: rest) =
        (first, probes) :: List.replicate rest.length (first, probes) ∧
      probes =
        (if fmttr.terminalInitOnce = true then 0
          else if entry.Logger.isSome = true then 1 else 0) ∧
      probes ≤ 1 ∧
      ∀ later ∈ rest,
        (Format first later).map (fun r => (r.fmttr, r.probes)) = some (first, 0) ∧
        (Format first later).map (fun r => r.fmttr.termInfo) = some first.termInfo := by
  obtain ⟨fieldsBlock, -, hF⟩ := Format_total fmttr entry
  have hdone := terminalInit_done fmttr entry
  have hp := terminalInit_probes fmttr entry
  refine ⟨(terminalInit fmttr entry).1, (terminalInit fmttr entry).2.2, ?_, ?_, hp, ?_, ?_⟩
  · rw [hF]; rfl
  · simp only [formatCalls, hF, Nat.zero_add]
    rw [formatCalls_done _ _ hdone rest]
  · rw [hp]
    split_ifs <;> omega
  · intro later _
    obtain ⟨fb, -, hL⟩ := Format_total (terminalInit fmttr entry).1 later
    rw [terminalInit_of_done _ later hdone] at hL
    exact ⟨by rw [hL]; rfl, by rw [hL]; rfl⟩

/-- Witness of C15: a first call whose size query fails, then a call with a
terminal of width 80 and a call without a logger: one probe, made by the first
call, and the cached `TermInfo` stays the zero value; and two calls with
terminals of widths 80 and 120: one probe, and the cached width stays 80. -/
theorem formatCalls_probe_once_witness :
    (∃ (first : Formatter) (probes : Nat),
      (Format NewHumanizeFormatter (failingSizeEntry "ioctl".toList)).map
          (fun r => (r.fmttr, r.probes)) = some (first, probes) ∧
      formatCalls NewHumanizeFormatter 0
          [failingSizeEntry "ioctl".toList, terminalEntry 80 24, demoEntry [] []] =
        (first, probes) :: List.replicate 2 (first, probes) ∧
      probes =
        (if NewHumanizeFormatter.terminalInitOnce = true then 0
          else if (failingSizeEntry "ioctl".toList).Logger.isSome = true then 1 else 0) ∧
      probes ≤ 1 ∧
      ∀ later ∈ [terminalEntry 80 24, demoEntry [] []],
        (Format first later).map (fun r => (r.fmttr, r.probes)) = some (first, 0) ∧
        (Format first later).map (fun r => r.fmttr.termInfo) = some first.termInfo) ∧
    formatCalls NewHumanizeFormatter 0
        [failingSizeEntry "ioctl".toList, terminalEntry 80 24, demoEntry [] []] =
      List.replicate 3 ({ NewHumanizeFormatter with terminalInitOnce := true }, 1) ∧
    formatCalls NewHumanizeFormatter 0 [terminalEntry 80 24, terminalEntry 120 40] =
      List.replicate 2
        ({ NewHumanizeFormatter with termInfo := ⟨true, 24, 80⟩, terminalInitOnce := true }, 1) ∧
    formatCalls NewHumanizeFormatter 0 [demoEntry [] [], terminalEntry 120 40] =
      List.replicate 2 ({ NewHumanizeFormatter with terminalInitOnce := true }, 0) :=
  ⟨formatCalls_probe_once NewHumanizeFormatter (failingSizeEntry "ioctl".toList)
    [terminalEntry 80 24, demoEntry [] []], by decide, by decide, by decide⟩

/-! ## The formatter chosen by the environment -/

/-- C16: for every state of the variable HUMANIZE, `NewHumanizeFormatterFromEnv`
returns the long formatter (Compact = false) and no error when the upper-cased
value is "FULL", the same formatter with Compact = true and no error when it
is "COMPACT", the fallback formatter and no error when it is "JSON", and
otherwise, the variable absent or its value not recognized, an error together
with the default long formatter. -/
theorem NewHumanizeFormatterFromEnv_cases (toUpper : GoString → GoString)
    (env : Option GoString) :
    (∀ s, env = some s → toUpper s = "FULL".toList →
      NewHumanizeFormatterFromEnv toUpper env
        = (LogrusFormatter.humanize { NewHumanizeFormatter with Compact := false }, none)) ∧
    (∀ s, env = some s → toUpper s = "COMPACT".toList →
      NewHumanizeFormatterFromEnv toUpper env
        = (LogrusFormatter.humanize { NewHumanizeFormatter with Compact := true }, none)) ∧
    (∀ s, env = some s → toUpper s = "JSON".toList →
      NewHumanizeFormatterFromEnv toUpper env
        = (LogrusFormatter.fallback FallbackFormatter.json, none)) ∧
    (env = none →
      NewHumanizeFormatterFromEnv toUpper env
        = (LogrusFormatter.humanize NewHumanizeFormatter,
            some "HUMANIZE not set in env, no format value could be read".toList)) ∧
    (∀ s, env = some s → toUpper s ≠ "FULL".toList → toUpper s ≠ "COMPACT".toList →
      toUpper s ≠ "JSON".toList →
      NewHumanizeFormatterFromEnv toUpper env
        = (LogrusFormatter.humanize NewHumanizeFormatter,
            some ("No such format as ".toList ++ s))) ∧
    NewHumanizeFormatter.Compact = false := by
  refine ⟨?_, ?_, ?_, ?_, ?_, rfl⟩
  · intro s hs hu
    subst hs
    simp only [NewHumanizeFormatterFromEnv, parseFormatFromEnv, FormatFull, hu, if_true]
    decide
  · intro s hs hu
    subst hs
    have h1 : ¬ ("COMPACT".toList = FormatFull) := by decide
    simp only [NewHumanizeFormatterFromEnv, parseFormatFromEnv, FormatCompact, hu, h1,
      if_true, if_false]
  · intro s hs hu
    subst hs
    have h1 : ¬ ("JSON".toList = FormatFull) := by decide
    have h2 : ¬ ("JSON".toList = FormatCompact) := by decide
    simp only [NewHumanizeFormatterFromEnv, parseFormatFromEnv, FormatJSON, hu, h1, h2,
      if_true, if_false]
  · intro hs
    subst hs
    rfl
  · intro s hs h1 h2 h3
    subst hs
    simp only [NewHumanizeFormatterFromEnv, parseFormatFromEnv, FormatFull, FormatCompact,
      FormatJSON, h1, h2, h3, if_false]

/-- Witness of C16: the values "Full", "compact", "json" and "yaml" of the
variable, and the variable not set. -/
theorem NewHumanizeFormatterFromEnv_cases_witness :
    NewHumanizeFormatterFromEnv asciiToUpper (some "Full".toList)
      = (LogrusFormatter.humanize { NewHumanizeFormatter with Compact := false }, none) ∧
    NewHumanizeFormatterFromEnv asciiToUpper (some "compact".toList)
      = (LogrusFormatter.humanize { NewHumanizeFormatter with Compact := true }, none) ∧
    NewHumanizeFormatterFromEnv asciiToUpper (some "json".toList)
      = (LogrusFormatter.fallback FallbackFormatter.json, none) ∧
    NewHumanizeFormatterFromEnv asciiToUpper none
      = (LogrusFormatter.humanize NewHumanizeFormatter,
          some "HUMANIZE not set in env, no format value could be read".toList) ∧
    NewHumanizeFormatterFromEnv asciiToUpper (some "yaml".toList)
      = (LogrusFormatter.humanize NewHumanizeFormatter,
          some "No such format as yaml".toList) :=
  ⟨(NewHumanizeFormatterFromEnv_cases asciiToUpper (some "Full".toList)).1
      "Full".toList rfl (by decide),
    (NewHumanizeFormatterFromEnv_cases asciiToUpper (some "compact".toList)).2.1
      "compact".toList rfl (by decide),
    (NewHumanizeFormatterFromEnv_cases asciiToUpper (some "json".toList)).2.2.1
      "json".toList rfl (by decide),
    (NewHumanizeFormatterFromEnv_cases asciiToUpper none).2.2.2.1 rfl,
    (NewHumanizeFormatterFromEnv_cases asciiToUpper (some "yaml".toList)).2.2.2.2.1
      "yaml".toList rfl (by decide) (by decide) (by decide)⟩

/-! ## Wrapping is monotone in the width -/

theorem wrapCount_wrap (seps : List GoString) :
    wrapCount (wrapSep :: seps) = 1 + wrapCount seps := by
  simp [wrapCount]; omega

theorem wrapCount_tab (seps : List GoString) :
    wrapCount (tabSep :: seps) = wrapCount seps := by
  have h : ¬ (tabSep = wrapSep) := by decide
  simp [wrapCount, List.filter_cons, h]

theorem compactLoop_trace (data : Fields) (wrapWidth : Int) :
    ∀ (ks : List GoString) (lines cur : GoString), cur ≠ [] →
      ∃ lines' cur' : GoString,
        compactLoop data wrapWidth 4 ks (lines, cur) = some (lines', cur') ∧
        cur' ≠ [] ∧
        (compactSeps data wrapWidth ks cur).length
          = (ks.filter fun k => decide (k ≠ errorKey)).length ∧
        lines' ++ cur' = lines ++ cur ++
          (List.zipWith (fun s k => s ++ compactField data k)
            (compactSeps data wrapWidth ks cur)
            (ks.filter fun k => decide (k ≠ errorKey))).flatten
  | [], lines, cur, hcur => ⟨lines, cur, by simp [compactLoop, compactSeps, hcur]⟩
  | k :: ks, lines, cur, hcur => by
    by_cases hk : k = errorKey
    · obtain ⟨l', c', h1, h2, h3, h4⟩ := compactLoop_trace data wrapWidth ks lines cur hcur
      exact ⟨l', c', by simp [compactLoop, hk, h1], h2, by simp [compactSeps, hk, h3],
        by simp [compactSeps, hk, h4]⟩
    · have hf : (k :: ks).filter (fun k => decide (k ≠ errorKey))
          = k :: ks.filter (fun k => decide (k ≠ errorKey)) := by
        simp [List.filter_cons, hk]
      by_cases hw : ((k ++ ": ".toList ++ fmtV (mapIndex data k)).length : Int)
          + (cur.length : Int) > wrapWidth
      · obtain ⟨l', c', h1, h2, h3, h4⟩ :=
          compactLoop_trace data wrapWidth ks (lines ++ cur) (wrapSep ++ compactField data k)
            (by simp [wrapSep])
        have hs : compactSeps data wrapWidth (k :: ks) cur
            = wrapSep :: compactSeps data wrapWidth ks (wrapSep ++ compactField data k) := by
          simp only [compactSeps, hk, if_false, hw, if_true, compactField]
        refine ⟨l', c', ?_, h2, ?_, ?_⟩
        · simp only [compactLoop, hk, if_false, hw, if_true, newLineWithOffset_four]
          exact h1
        · rw [hf, hs, List.length_cons, List.length_cons, h3]
        · rw [hf, hs, h4]
          simp only [List.zipWith_cons_cons, List.flatten_cons, List.append_assoc]
      · obtain ⟨l', c', h1, h2, h3, h4⟩ :=
          compactLoop_trace data wrapWidth ks lines (cur ++ tabSep ++ compactField data k)
            (by simp [hcur])
        have hs : compactSeps data wrapWidth (k :: ks) cur
            = tabSep :: compactSeps data wrapWidth ks (cur ++ tabSep ++ compactField data k) := by
          simp only [compactSeps, hk, if_false, hw, compactField, tabSep]
        refine ⟨l', c', ?_, h2, ?_, ?_⟩
        · simp only [compactLoop, hk, if_false, hw]
          exact h1
        · rw [hf, hs, List.length_cons, List.length_cons, h3]
        · rw [hf, hs, h4]
          simp only [List.zipWith_cons_cons, List.flatten_cons, List.append_assoc]

theorem renderFieldsCompact_trace (fmttr : Formatter) (entry : Entry) :
    renderFieldsCompact fmttr entry =
      some ("\n".toList ++ spaces 8 ++
        (List.zipWith (fun s k => s ++ compactField entry.Data k)
          (compactSeps entry.Data fmttr.termInfo.WidthCols (fieldOrder entry) (spaces 4))
          (shownKeys entry)).flatten, none) ∧
    (compactSeps entry.Data fmttr.termInfo.WidthCols (fieldOrder entry) (spaces 4)).length
      = (shownKeys entry).length := by
  have hsp : stringsRepeat " ".toList 4 = some (spaces 4) := by
    have := stringsRepeat_space 4
    simpa only [Nat.cast_ofNat] using this
  obtain ⟨l', c', h1, h2, h3, h4⟩ :=
    compactLoop_trace entry.Data fmttr.termInfo.WidthCols (fieldOrder entry)
      wrapSep (spaces 4) (by simp [spaces])
  refine ⟨?_, h3⟩
  simp only [renderFieldsCompact, newLineWithOffset_four, hsp, h1, h2, not_false_eq_true,
    if_true, h4]
  rfl

theorem compactSeps_wrapCount_mono (data : Fields) (w w' : Int) (hw : w ≤ w') :
    ∀ (ks : List GoString) (cur cur' : GoString), 4 ≤ cur.length →
      wrapCount (compactSeps data w' ks cur') ≤ 1 + wrapCount (compactSeps data w ks cur) ∧
      (cur'.length ≤ cur.length →
        wrapCount (compactSeps data w' ks cur') ≤ wrapCount (compactSeps data w ks cur))
  | [], _, _, _ => by simp [compactSeps, wrapCount]
  | k :: ks, cur, cur', h4 => by
    have ih := compactSeps_wrapCount_mono data w w' hw ks
    by_cases hk : k = errorKey
    · simp only [compactSeps, hk, if_true]
      exact ih cur cur' h4
    · have hnl : ∀ line : GoString, (wrapSep ++ line).length = 5 + line.length := by
        intro line
        have : wrapSep.length = 5 := rfl
        rw [List.length_append, this]
      have htab : ∀ c line : GoString,
          (c ++ "\t".toList ++ line).length = c.length + 1 + line.length := by
        intro c line
        have : "\t".toList.length = 1 := rfl
        rw [List.length_append, List.length_append, this]
      generalize hline : k ++ ": ".toList ++ fmtV (mapIndex data k) = line
      simp only [compactSeps, hk, if_false, hline]
      by_cases h1 : (line.length : Int) + (cur.length : Int) > w
      · by_cases h2 : (line.length : Int) + (cur'.length : Int) > w'
        · simp only [h1, h2, if_true, wrapCount_wrap]
          have := (ih (wrapSep ++ line) (wrapSep ++ line) (by rw [hnl]; omega)).2 (le_refl _)
          exact ⟨by omega, fun _ => by omega⟩
        · simp only [h1, h2, if_true, if_false, wrapCount_wrap, wrapCount_tab]
          have := (ih (wrapSep ++ line) (cur' ++ "\t".toList ++ line) (by rw [hnl]; omega)).1
          exact ⟨by omega, fun _ => this⟩
      · by_cases h2 : (line.length : Int) + (cur'.length : Int) > w'
        · simp only [h1, h2, if_true, if_false, wrapCount_wrap, wrapCount_tab]
          have := (ih (cur ++ "\t".toList ++ line) (wrapSep ++ line)
            (by rw [htab]; omega)).2 (by rw [hnl, htab]; omega)
          refine ⟨by omega, fun hle => ?_⟩
          omega
        · simp only [h1, h2, if_false, wrapCount_tab]
          have := ih (cur ++ "\t".toList ++ line) (cur' ++ "\t".toList ++ line)
            (by rw [htab]; omega)
          exact ⟨this.1, fun hle => this.2 (by rw [htab, htab]; omega)⟩

/-- C19: greedy wrapping is monotone in the width. For every entry and two
formatters whose cached widths are W <= W', both compact blocks are "\n" ++ 8
spaces followed by the same fields in the same order, each after the separator
that the loop chose for it, and the number of wrap separators ("\n" ++ 4
spaces) chosen at width W' is at most the number chosen at width W. -/
theorem renderFieldsCompact_wraps_monotone (fmttr fmttr' : Formatter) (entry : Entry)
    (hw : fmttr.termInfo.WidthCols ≤ fmttr'.termInfo.WidthCols) :
    renderFieldsCompact fmttr entry =
      some ("\n".toList ++ spaces 8 ++
        (List.zipWith (fun s k => s ++ (k ++ ": ".toList ++ fmtV (mapIndex entry.Data k)))
          (compactSeps entry.Data fmttr.termInfo.WidthCols (fieldOrder entry) (spaces 4))
          ((fieldOrder entry).filter fun k => decide (k ≠ errorKey))).flatten, none) ∧
    renderFieldsCompact fmttr' entry =
      some ("\n".toList ++ spaces 8 ++
        (List.zipWith (fun s k => s ++ (k ++ ": ".toList ++ fmtV (mapIndex entry.Data k)))
          (compactSeps entry.Data fmttr'.termInfo.WidthCols (fieldOrder entry) (spaces 4))
          ((fieldOrder entry).filter fun k => decide (k ≠ errorKey))).flatten, none) ∧
    (compactSeps entry.Data fmttr.termInfo.WidthCols (fieldOrder entry) (spaces 4)).length
      = ((fieldOrder entry).filter fun k => decide (k ≠ errorKey)).length ∧
    (compactSeps entry.Data fmttr'.termInfo.WidthCols (fieldOrder entry) (spaces 4)).length
      = ((fieldOrder entry).filter fun k => decide (k ≠ errorKey)).length ∧
    wrapCount (compactSeps entry.Data fmttr'.termInfo.WidthCols (fieldOrder entry) (spaces 4))
      ≤ wrapCount (compactSeps entry.Data fmttr.termInfo.WidthCols (fieldOrder entry) (spaces 4)) :=
  ⟨(renderFieldsCompact_trace fmttr entry).1, (renderFieldsCompact_trace fmttr' entry).1,
    (renderFieldsCompact_trace fmttr entry).2, (renderFieldsCompact_trace fmttr' entry).2,
    (compactSeps_wrapCount_mono entry.Data _ _ hw (fieldOrder entry) (spaces 4) (spaces 4)
      (by simp [spaces])).2 (le_refl _)⟩

/-- Witness of C19: the demo's fields at the widths 20 and 80: two wrap
separators at width 20, none at width 80. -/
theorem renderFieldsCompact_wraps_monotone_witness :
    (compactFormatter 20).termInfo.WidthCols ≤ (compactFormatter 80).termInfo.WidthCols ∧
    wrapCount (compactSeps (demoEntry [] []).Data (compactFormatter 80).termInfo.WidthCols
        (fieldOrder (demoEntry [] [])) (spaces 4))
      ≤ wrapCount (compactSeps (demoEntry [] []).Data (compactFormatter 20).termInfo.WidthCols
        (fieldOrder (demoEntry [] [])) (spaces 4)) ∧
    compactSeps (demoEntry [] []).Data 20 (fieldOrder (demoEntry [] [])) (spaces 4)
      = [wrapSep, wrapSep] ∧
    compactSeps (demoEntry [] []).Data 80 (fieldOrder (demoEntry [] [])) (spaces 4)
      = [tabSep, tabSep] ∧
    renderFieldsCompact (compactFormatter 20) (demoEntry [] []) =
      some ("\n        \n    dance: flhargunstow\n    power_level: 9000".toList, none) ∧
    renderFieldsCompact (compactFormatter 80) (demoEntry [] []) =
      some ("\n        \tdance: flhargunstow\tpower_level: 9000".toList, none) :=
  ⟨by decide,
    (renderFieldsCompact_wraps_monotone (compactFormatter 20) (compactFormatter 80)
      (demoEntry [] []) (by decide)).2.2.2.2,
    by decide, by decide, by decide, by decide⟩

end Humanize
